import Mathlib

/-!
Verification of the structured-packer-logs decoder (`src/log.rs`, `src/event.rs`).

The Rust code decodes a comma-separated, line-oriented build log through three
nested resumable state machines: `PartialArtifactLog` (one artifact),
`PartialBuildLog` (one build, owning artifact decoders by slot) and `EventLog`
(the stream dispatcher, owning build decoders by build name).

Embedding conventions:
* an input line is the list of its comma-separated tokens (`List String`);
* every `panic` / `expect` / `unwrap` / `todo` in the source is a fatal
  error, modelled as the `Except DecodeError` error case (a panic aborts the
  call before any further callback can fire, and the `Except` error result
  carries no emissions, matching that);
* callbacks are modelled by returning the list of values the decoder passed
  to its callback during the call, in invocation order;
* `usize` parsing of a token is modelled by `parseNat` (digits only, empty
  string rejected), and machine-width overflow is ignored (no claim touches
  it);
* the `HashMap<String, PartialBuildLog>` is modelled as an association list
  with `entry(..).or_insert(..)` semantics.
-/

/-- Errors: one constructor per distinct fatal condition in the source.
`unexpectedMessage` is `expect_message`'s failure and carries the decoder
stage, the expected tag and the actual tag, exactly the data in the
source's message. -/
inductive DecodeError where
  | missingToken (what : String)
  | parseFailure (what : String)
  | unexpectedMessage (stage : String) (expected : String) (actual : String)
  | indexOutOfBounds (what : String)
  | unwrapFailure (what : String)
  | alreadyFinished
  | todoUnimplemented
  deriving DecidableEq, Repr

/-- Record `Artifact` from `event.rs`. -/
structure Artifact where
  builder_id : String
  id : Option String
  files : List String
  deriving DecidableEq, Repr

/-- Record `Build` from `event.rs`. -/
structure Build where
  artifacts : List Artifact
  deriving DecidableEq, Repr

/-- Union `UI` from `event.rs`. -/
inductive UI where
  | Say (s : String)
  | Message (s : String)
  | Error (s : String)
  deriving DecidableEq, Repr

/-- Union `EventKind` from `event.rs`.  Note that the `Build` variant carries only
the completed build, no build name. -/
inductive EventKind where
  | UI (ui : UI)
  | Artifact (build_name : String) (artifact : Artifact)
  | Build (build : Build)
  deriving DecidableEq, Repr

/-- Record `Event` from `event.rs`. -/
structure Event where
  timestamp : String
  kind : EventKind
  deriving DecidableEq, Repr

/-- Digit value of a character, `none` for non-digits. -/
def digitVal (c : Char) : Option Nat :=
  if '0' ≤ c ∧ c ≤ '9' then some (c.toNat - '0'.toNat) else none

/-- Accumulating digit parser over the characters of a token. -/
def parseNatAux : List Char → Nat → Option Nat
  | [], acc => some acc
  | c :: cs, acc =>
    match digitVal c with
    | some d => parseNatAux cs (acc * 10 + d)
    | none => none

/-- Model of Rust's `str::parse::<usize>()` on a token: all characters must
be decimal digits and the token must be non-empty (overflow is not
modelled). -/
def parseNat (s : String) : Option Nat :=
  match s.data with
  | [] => none
  | cs => parseNatAux cs 0

/-- Flag `Decoding` from `log.rs`: did this call complete the structure? -/
inductive Decoding where
  | Partial
  | Done
  deriving DecidableEq, Repr

/-- Function `expect_message` from `log.rs`: the tag token of the line must match the
tag the current state expects, otherwise a fatal error naming the stage and
both tags. -/
def expect_message (stage : String) (expected : String) (message : String) :
    Except DecodeError Unit :=
  if message = expected then .ok ()
  else .error (.unexpectedMessage stage expected message)

/-- State machine `PartialArtifactLog` from `log.rs`.  The Rust variant `String` is named
`Str` here because `String` would shadow the string type. -/
inductive PartialArtifactLog where
  | Root
  | BuilderId (builder_id : String)
  | Id (builder_id : String) (id : Option String)
  | Str (builder_id : String) (id : Option String) (string : String)
  | ListingFiles (builder_id : String) (id : Option String) (string : String)
      (count : Nat) (files : List (Option String))
  | Done (artifact : Artifact)
  deriving DecidableEq, Repr

/-- Model of `files.into_iter().map(Option::unwrap).collect()`: unwrap every file
slot, failing on the first unfilled one. -/
def unwrapAll : List (Option String) → Except DecodeError (List String)
  | [] => .ok []
  | none :: _ => .error (.unwrapFailure "file slot")
  | some s :: rest => do
    let tail ← unwrapAll rest
    pure (s :: tail)

/-- Model of `<PartialArtifactLog as Decodeable>::try_decode`.  Input is the remaining
token list of the line; the result is the new state, the artifacts passed to
the callback during the call (in order), and the `Decoding` flag computed,
as in the source, from whether the new state is `Done`. -/
def PartialArtifactLog.try_decode (self : PartialArtifactLog)
    (input : List String) :
    Except DecodeError (PartialArtifactLog × List Artifact × Decoding) := do
  let message ← match input.head? with
    | some m => pure m
    | none => .error (.missingToken "no message passed to partial artifact build logger")
  let rest := input.tail
  let (next, emitted) ← show Except DecodeError (PartialArtifactLog × List Artifact) from
    match self with
    | .Root => do
      let _ ← expect_message "partial artifact" "builder-id" message
      match rest.head? with
      | some id => pure (.BuilderId id, [])
      | none => .error (.missingToken "no builder id specified")
    | .BuilderId builder_id => do
      let _ ← expect_message "partial artifact" "id" message
      match rest.head? with
      | some tok =>
        let id : Option String := if tok = "" then none else some tok
        pure (.Id builder_id id, [])
      | none => .error (.missingToken "no id specified")
    | .Id builder_id id => do
      let _ ← expect_message "partial artifact" "string" message
      match rest.head? with
      | some string => pure (.Str builder_id id string, [])
      | none => .error (.missingToken "no builder id specified")
    | .Str builder_id id string => do
      let _ ← expect_message "partial artifact" "files-count" message
      match rest.head? with
      | some tok =>
        match parseNat tok with
        | some count =>
          pure (.ListingFiles builder_id id string count (List.replicate count none), [])
        | none => .error (.parseFailure "file count")
      | none => .error (.missingToken "no file count specified")
    | .ListingFiles builder_id id string count files =>
      if count = 0 then do
        let _ ← expect_message "partial artifact" "end" message
        let names ← unwrapAll files
        let artifact : Artifact := ⟨builder_id, id, names⟩
        pure (.Done artifact, [artifact])
      else do
        let _ ← expect_message "partial artifact" "file" message
        match rest.head? with
        | some idTok =>
          match parseNat idTok with
          | some file_id =>
            match rest.tail.head? with
            | some file_name =>
              if _h : file_id < files.length then
                pure (.ListingFiles builder_id id string (count - 1)
                  (files.set file_id (some file_name)), [])
              else .error (.indexOutOfBounds "file slot")
            | none => .error (.missingToken "no file name specified")
          | none => .error (.parseFailure "file id")
        | none => .error (.missingToken "no file id specified")
    | .Done _ => .error .alreadyFinished
  pure (next, emitted,
    match next with
    | .Done _ => Decoding.Done
    | _ => Decoding.Partial)

/-- Feed a sequence of lines to one artifact decoder, concatenating the
callback outputs of every call. -/
def runArtifact (st : PartialArtifactLog) :
    List (List String) → Except DecodeError (PartialArtifactLog × List Artifact)
  | [] => .ok (st, [])
  | l :: ls => do
    let (st1, ems, _) ← st.try_decode l
    let (st2, ems2) ← runArtifact st1 ls
    pure (st2, ems ++ ems2)

/-- State machine `PartialBuildLog` from `log.rs`. -/
inductive PartialBuildLog where
  | Root
  | ListingArtifacts (count : Nat) (artifacts : List (Option PartialArtifactLog))
  | Done (build : Build)
  deriving DecidableEq, Repr

/-- Union `BuildLogEventKind` from `log.rs`: what a build decoder passes to its
callback. -/
inductive BuildLogEventKind where
  | Artifact (artifact : Artifact)
  | Done (build : Build)
  deriving DecidableEq, Repr

/-- Model of `artifacts.into_iter().map(Option::unwrap).map(Artifact::try_from).map(Result::unwrap)`:
each slot must be occupied by a `Done` artifact decoder. -/
def finalizeSlots : List (Option PartialArtifactLog) →
    Except DecodeError (List Artifact)
  | [] => .ok []
  | none :: _ => .error (.unwrapFailure "artifact slot")
  | some st :: rest =>
    match st with
    | .Done a => do
      let tail ← finalizeSlots rest
      pure (a :: tail)
    | _ => .error (.unwrapFailure "artifact not done yet")

/-- Model of `<PartialBuildLog as Decodeable>::try_decode`. -/
def PartialBuildLog.try_decode (self : PartialBuildLog) (input : List String) :
    Except DecodeError (PartialBuildLog × List BuildLogEventKind × Decoding) := do
  let message ← match input.head? with
    | some m => pure m
    | none => .error (.missingToken "no message passed to partial artifact build logger")
  let rest := input.tail
  let (next, emitted) ← show Except DecodeError (PartialBuildLog × List BuildLogEventKind) from
    match self with
    | .Root => do
      let _ ← expect_message "partial build" "artifact-count" message
      match rest.head? with
      | some tok =>
        match parseNat tok with
        | some count =>
          pure (.ListingArtifacts count (List.replicate count none), [])
        | none => .error (.parseFailure "artifact count")
      | none => .error (.missingToken "no artifact count specified")
    | .ListingArtifacts count artifacts => do
      let _ ← expect_message "partial build" "artifact" message
      match rest.head? with
      | some idTok =>
        match parseNat idTok with
        | some artifact_id =>
          if _h : artifact_id < artifacts.length then
            match ((artifacts.get ⟨artifact_id, _h⟩).getD .Root).try_decode rest.tail with
            | .error e => .error e
            | .ok (st1, ems, dec) =>
              let artifacts1 := artifacts.set artifact_id (some st1)
              let count1 := if dec = Decoding.Done then count - 1 else count
              let emitted1 := ems.map BuildLogEventKind.Artifact
              if count1 = 0 then
                match finalizeSlots artifacts1 with
                | .error e => .error e
                | .ok arts =>
                  let build : Build := ⟨arts⟩
                  pure (.Done build, emitted1 ++ [.Done build])
              else
                pure (.ListingArtifacts count1 artifacts1, emitted1)
          else .error (.indexOutOfBounds "artifact slot")
        | none => .error (.parseFailure "artifact id")
      | none => .error (.missingToken "no artifact id specified")
    | .Done _ => .error .todoUnimplemented
  pure (next, emitted,
    match next with
    | .Done _ => Decoding.Done
    | _ => Decoding.Partial)

/-- Feed a sequence of lines to one build decoder, concatenating the callback
outputs of every call. -/
def runBuild (st : PartialBuildLog) :
    List (List String) → Except DecodeError (PartialBuildLog × List BuildLogEventKind)
  | [] => .ok (st, [])
  | l :: ls => do
    let (st1, ems, _) ← st.try_decode l
    let (st2, ems2) ← runBuild st1 ls
    pure (st2, ems ++ ems2)

/-- Dispatcher `EventLog` from `log.rs`.  The `HashMap<String, PartialBuildLog>` is
embedded as an association list in insertion order. -/
structure EventLog where
  builds : List (String × PartialBuildLog)
  deriving DecidableEq, Repr

/-- Lookup in the build map. -/
def lookupBuild : List (String × PartialBuildLog) → String → Option PartialBuildLog
  | [], _ => none
  | (k, v) :: rest, name => if k = name then some v else lookupBuild rest name

/-- Update (or append) an entry of the build map; with `lookupBuild` this
models `HashMap::entry(name).or_insert(root)` followed by in-place mutation
of the entry. -/
def updateBuild : List (String × PartialBuildLog) → String → PartialBuildLog →
    List (String × PartialBuildLog)
  | [], name, v => [(name, v)]
  | (k, w) :: rest, name, v =>
    if k = name then (k, v) :: rest else (k, w) :: updateBuild rest name v

/-- Re-wrapping of a build decoder callback value done by `EventLog`'s
`enrich` closure: tag it with the line's timestamp, and artifact completions
additionally with the build name.  Build completions carry only the build. -/
def enrich (timestamp build_name : String) : BuildLogEventKind → Event
  | .Artifact artifact => ⟨timestamp, .Artifact build_name artifact⟩
  | .Done build => ⟨timestamp, .Build build⟩

/-- Model of `<EventLog as Decodeable>::try_decode`. -/
def EventLog.try_decode (self : EventLog) (input : List String) :
    Except DecodeError (EventLog × List Event × Decoding) := do
  let timestamp ← match input.head? with
    | some t => pure t
    | none => .error (.missingToken "no timestamp found")
  let build_name ← match input.tail.head? with
    | some b => pure b
    | none => .error (.missingToken "no build name found")
  let rest := input.tail.tail
  let (next, emitted) ← show Except DecodeError (EventLog × List Event) from
    if build_name = "" then do
      let message_type ← match rest.head? with
        | some m => pure m
        | none => .error (.missingToken "no message type in line")
      let kind ← show Except DecodeError EventKind from
        match message_type with
        | "ui" => do
          let ui_type ← match rest.tail.head? with
            | some u => pure u
            | none => .error (.missingToken "no sub-type for ui event found")
          let text ← match rest.tail.tail.head? with
            | some t => pure t
            | none => .error (.missingToken "ui text")
          match ui_type with
          | "say" => pure (.UI (.Say text))
          | "message" => pure (.UI (.Message text))
          | "error" => pure (.UI (.Error text))
          | _ => .error (.unwrapFailure "unexpected global ui message")
        | _ => .error (.unwrapFailure "unexpected global message_type")
      pure (self, [⟨timestamp, kind⟩])
    else
      match ((lookupBuild self.builds build_name).getD .Root).try_decode rest with
      | .error e => .error e
      | .ok (st1, ems, _) =>
        pure (⟨updateBuild self.builds build_name st1⟩,
          ems.map (enrich timestamp build_name))
  pure (next, emitted, Decoding.Partial)

/-- Feed a sequence of lines to the event log, recording for each line the
events emitted during that call. -/
def runEvents (m : EventLog) :
    List (List String) →
    Except DecodeError (EventLog × List (List String × List Event))
  | [] => .ok (m, [])
  | l :: ls => do
    let (m1, evs, _) ← m.try_decode l
    let (m2, tr) ← runEvents m1 ls
    pure (m2, (l, evs) :: tr)

/-- The seven example input lines of the spec's end-to-end example. -/
def exampleLines : List (List String) :=
  [["0", "b1", "artifact-count", "1"],
   ["1", "b1", "artifact", "0", "builder-id", "pkgA"],
   ["2", "b1", "artifact", "0", "id", ""],
   ["3", "b1", "artifact", "0", "string", "desc"],
   ["4", "b1", "artifact", "0", "files-count", "1"],
   ["5", "b1", "artifact", "0", "file", "0", "out.bin"],
   ["6", "b1", "artifact", "0", "end"]]

/-- The artifact produced by the example. -/
def exampleArtifact : Artifact := ⟨"pkgA", none, ["out.bin"]⟩

/-- The tag token the artifact decoder expects in each non-terminal state
(read off the `expect_message` call of each `try_decode` arm). -/
def artifactExpects : PartialArtifactLog → Option String
  | .Root => some "builder-id"
  | .BuilderId _ => some "id"
  | .Id _ _ => some "string"
  | .Str _ _ _ => some "files-count"
  | .ListingFiles _ _ _ count _ => some (if count = 0 then "end" else "file")
  | .Done _ => none

/-- The tag token the build decoder expects in each non-terminal state. -/
def buildExpects : PartialBuildLog → Option String
  | .Root => some "artifact-count"
  | .ListingArtifacts _ _ => some "artifact"
  | .Done _ => none

/-- The id token of an `id` line as the decoder interprets it: the empty
string means no id. -/
def idVal (tok : String) : Option String :=
  if tok = "" then none else some tok

/-- Description of one artifact's complete line sequence, in the grammar
order: the builder id token, the id token, the descriptive string token, the
files-count token together with its declared numeric value `n`, and the file
lines as `(slot, slotToken, name)` triples in arrival order. -/
structure ArtSpec where
  builderTok : String
  idTok : String
  strTok : String
  countTok : String
  n : Nat
  ps : List (Nat × String × String)
  deriving Repr

/-- Well-formedness of an artifact line sequence: the count token parses to
`n`, there are exactly `n` file lines, their slot tokens parse to their slot
indices, the slots are in range and pairwise distinct. -/
def ArtSpec.WF (A : ArtSpec) : Prop :=
  parseNat A.countTok = some A.n ∧
  A.ps.length = A.n ∧
  (A.ps.map Prod.fst).Nodup ∧
  ∀ p ∈ A.ps, p.1 < A.n ∧ parseNat p.2.1 = some p.1

/-- The token list of one `file` line. -/
def fileLine (p : Nat × String × String) : List String :=
  ["file", p.2.1, p.2.2]

/-- The four header lines of an artifact. -/
def headerLines (A : ArtSpec) : List (List String) :=
  [["builder-id", A.builderTok], ["id", A.idTok],
   ["string", A.strTok], ["files-count", A.countTok]]

/-- The complete line sequence of an artifact: header, file lines in arrival
order, terminator. -/
def ArtSpec.lines (A : ArtSpec) : List (List String) :=
  headerLines A ++ A.ps.map fileLine ++ [["end"]]

/-- Fill file slots: write each `(slot, _, name)` of `ps` into `base`, in
order (exactly what the decoder's repeated `files[file_id].replace(..)`
does). -/
def setSlots (base : List (Option String)) :
    List (Nat × String × String) → List (Option String)
  | [] => base
  | p :: ps => setSlots (base.set p.1 (some p.2.2)) ps

/-- The files sequence of the completed artifact: all slots filled, read in
ascending slot order. -/
def ArtSpec.finalFiles (A : ArtSpec) : List String :=
  (setSlots (List.replicate A.n none) A.ps).map (fun o => o.getD "")

/-- The artifact a well-formed line sequence decodes to. -/
def ArtSpec.artifact (A : ArtSpec) : Artifact :=
  ⟨A.builderTok, idVal A.idTok, A.finalFiles⟩

/-- The artifact decoder state after consuming the first `k` lines of the
sequence. -/
def ArtSpec.stateAt (A : ArtSpec) : Nat → PartialArtifactLog
  | 0 => .Root
  | 1 => .BuilderId A.builderTok
  | 2 => .Id A.builderTok (idVal A.idTok)
  | 3 => .Str A.builderTok (idVal A.idTok) A.strTok
  | (j + 4) =>
    if j ≤ A.ps.length then
      .ListingFiles A.builderTok (idVal A.idTok) A.strTok (A.n - j)
        (setSlots (List.replicate A.n none) (A.ps.take j))
    else .Done A.artifact

/-- Description of one build's complete input: the artifact-count token with
its numeric value, and one artifact line sequence per slot. -/
structure BuildSpec where
  countTok : String
  arts : List ArtSpec

/-- Well-formedness of a build input: the count token parses to the number
of slots and every slot's artifact sequence is well-formed. -/
def BuildSpec.WF (B : BuildSpec) : Prop :=
  parseNat B.countTok = some B.arts.length ∧ ∀ A ∈ B.arts, A.WF

/-- The build a well-formed input decodes to: the slots' artifacts in slot
order. -/
def BuildSpec.build (B : BuildSpec) : Build :=
  ⟨B.arts.map ArtSpec.artifact⟩

/-- Relation `BuildIlv R ilv`: `ilv` is an interleaving of the per-slot remaining
line lists `R`, each line prefixed with the `artifact` tag and a token
parsing to its slot index.  Slots advance independently; each keeps its own
order. -/
inductive BuildIlv : List (List (List String)) → List (List String) → Prop where
  | nil (R : List (List (List String))) (h : ∀ r ∈ R, r = []) : BuildIlv R []
  | cons (R : List (List (List String))) (s : Nat) (sTok : String)
      (l : List String) (ls : List (List String)) (rest : List (List String))
      (hget : R[s]? = some (l :: ls))
      (htok : parseNat sTok = some s)
      (hrec : BuildIlv (R.set s ls) rest) :
      BuildIlv R (("artifact" :: sTok :: l) :: rest)

/-- Number of slots that still have lines left. -/
def countIncomplete : List (List (List String)) → Nat
  | [] => 0
  | r :: rs => (if r.isEmpty then 0 else 1) + countIncomplete rs

/-- Relation `Ilv2 xs ys zs`: `zs` is an interleaving of `xs` and `ys` (each kept in
order). -/
inductive Ilv2 : List (List String) → List (List String) → List (List String) → Prop where
  | nil : Ilv2 [] [] []
  | left (x : List String) (xs ys zs : List (List String)) :
      Ilv2 xs ys zs → Ilv2 (x :: xs) ys (x :: zs)
  | right (y : List String) (xs ys zs : List (List String)) :
      Ilv2 xs ys zs → Ilv2 xs (y :: ys) (y :: zs)

/-- Prefix every per-build line (timestamp, remaining tokens) with its
timestamp and the given build name, producing full input lines. -/
def tagLines (name : String) (ls : List (String × List String)) : List (List String) :=
  ls.map (fun p => p.1 :: name :: p.2)

/-- The events of a trace that were emitted on lines whose build-name token
is `name`, in order. -/
def projEvents (name : String) (tr : List (List String × List Event)) : List Event :=
  (tr.filter (fun p => p.1.get? 1 = some name)).flatMap (·.2)

/-- All events of a trace, in order. -/
def traceEvents (tr : List (List String × List Event)) : List Event :=
  tr.flatMap (·.2)

/-- Two identical single-artifact builds under different names `b1` and
`b2`, deliberately fed with the same timestamps, for the purpose of
comparing their completion events. -/
def twoBuildLines : List (List String) :=
  exampleLines ++ (exampleLines.map (fun l => l.set 1 "b2"))

/-- The event log state after the first six lines of the spec example (used
to exercise the line that completes the artifact and the build). -/
def exampleLogAfterSix : EventLog :=
  ((runEvents ⟨[]⟩ (exampleLines.take 6)).toOption.map (·.1)).getD ⟨[]⟩

/-- A concrete two-file artifact sequence whose file lines arrive in
descending slot order. -/
def witnessArt : ArtSpec :=
  ⟨"pkgB", "idX", "d", "2", 2, [(1, "1", "b.txt"), (0, "0", "a.txt")]⟩

/-- A concrete two-file artifact sequence whose two file lines both fill
slot 0, leaving slot 1 empty. -/
def dupArt : ArtSpec :=
  ⟨"pkgC", "", "d", "2", 2, [(0, "0", "x.txt"), (0, "0", "y.txt")]⟩

/-- A concrete one-artifact build spec. -/
def wArt : ArtSpec := ⟨"pkgA", "", "d", "1", 1, [(0, "0", "out.bin")]⟩

/-- A concrete build with one artifact in slot 0. -/
def wBuild : BuildSpec := ⟨"1", [wArt]⟩

/-- The slot-tagged artifact lines of `wBuild` (trivial interleaving of one
slot). -/
def wIlv : List (List String) :=
  [["artifact", "0", "builder-id", "pkgA"],
   ["artifact", "0", "id", ""],
   ["artifact", "0", "string", "d"],
   ["artifact", "0", "files-count", "1"],
   ["artifact", "0", "file", "0", "out.bin"],
   ["artifact", "0", "end"]]

/-- The example build's lines as (timestamp, remainder) pairs, without the
build name. -/
def wLa : List (String × List String) :=
  [("0", ["artifact-count", "1"]),
   ("1", ["artifact", "0", "builder-id", "pkgA"]),
   ("2", ["artifact", "0", "id", ""]),
   ("3", ["artifact", "0", "string", "desc"]),
   ("4", ["artifact", "0", "files-count", "1"]),
   ("5", ["artifact", "0", "file", "0", "out.bin"]),
   ("6", ["artifact", "0", "end"])]

/-- A strict alternation of the same build content under the names `b1` and
`b2`. -/
def wZs : List (List String) :=
  [["0", "b1", "artifact-count", "1"], ["0", "b2", "artifact-count", "1"],
   ["1", "b1", "artifact", "0", "builder-id", "pkgA"],
   ["1", "b2", "artifact", "0", "builder-id", "pkgA"],
   ["2", "b1", "artifact", "0", "id", ""],
   ["2", "b2", "artifact", "0", "id", ""],
   ["3", "b1", "artifact", "0", "string", "desc"],
   ["3", "b2", "artifact", "0", "string", "desc"],
   ["4", "b1", "artifact", "0", "files-count", "1"],
   ["4", "b2", "artifact", "0", "files-count", "1"],
   ["5", "b1", "artifact", "0", "file", "0", "out.bin"],
   ["5", "b2", "artifact", "0", "file", "0", "out.bin"],
   ["6", "b1", "artifact", "0", "end"], ["6", "b2", "artifact", "0", "end"]]

/-- Final log of the contiguous `b1` run of `wLa`. -/
def wMA : EventLog :=
  ((runEvents ⟨[]⟩ (tagLines "b1" wLa)).toOption.map (·.1)).getD ⟨[]⟩

/-- Trace of the contiguous `b1` run of `wLa`. -/
def wTrA : List (List String × List Event) :=
  ((runEvents ⟨[]⟩ (tagLines "b1" wLa)).toOption.map (·.2)).getD []

/-- Final log of the contiguous `b2` run of `wLa`. -/
def wMB : EventLog :=
  ((runEvents ⟨[]⟩ (tagLines "b2" wLa)).toOption.map (·.1)).getD ⟨[]⟩

/-- Trace of the contiguous `b2` run of `wLa`. -/
def wTrB : List (List String × List Event) :=
  ((runEvents ⟨[]⟩ (tagLines "b2" wLa)).toOption.map (·.2)).getD []

/-! ### General lemmas -/

/-- Inversion of a successful `Except` bind. -/
theorem bind_eq_ok_inv {ε α β : Type} {x : Except ε α} {f : α → Except ε β}
    {b : β} (h : x >>= f = .ok b) : ∃ a, x = .ok a ∧ f a = .ok b := by
  cases x with
  | error e => exact absurd h (by simp [Bind.bind, Except.bind])
  | ok a => exact ⟨a, rfl, by simpa [Bind.bind, Except.bind] using h⟩

/-- On a line whose build name is non-empty, `EventLog.try_decode` is the
build decoder of that name's entry (created at `Root` if absent) applied to
the rest of the line, with its callback outputs re-wrapped by `enrich`, the
entry updated, and status `Partial`. -/
theorem eventlog_decode_build (m : EventLog) (ts name : String)
    (rest : List String) (hname : ¬name = "") :
    m.try_decode (ts :: name :: rest) =
      match ((lookupBuild m.builds name).getD .Root).try_decode rest with
      | .error e => .error e
      | .ok (st1, ems, _) =>
        .ok (⟨updateBuild m.builds name st1⟩,
          ems.map (enrich ts name), Decoding.Partial) := by
  show (do
    let (next, emitted) ← show Except DecodeError (EventLog × List Event) from
      if name = "" then _ else
        match ((lookupBuild m.builds name).getD .Root).try_decode rest with
        | .error e => .error e
        | .ok (st1, ems, _) =>
          pure (⟨updateBuild m.builds name st1⟩, ems.map (enrich ts name))
    pure (next, emitted, Decoding.Partial) : Except DecodeError _) = _
  rw [if_neg hname]
  cases h : ((lookupBuild m.builds name).getD .Root).try_decode rest with
  | error e => rfl
  | ok t =>
    obtain ⟨st1, ems, d⟩ := t
    rfl

/-! ### C4: the end-to-end example -/

/-- C4.  Feeding a fresh `EventLog` the seven example lines
`0,b1,artifact-count,1` … `6,b1,artifact,0,end` emits no events for the
first six lines; the seventh emits exactly two events, first the
artifact-completion for build `b1` with builder id `pkgA`, no id and files
`[out.bin]`, then the build-completion with that one artifact, both stamped
with timestamp `6`. -/
theorem eventlog_example_trace :
    (runEvents ⟨[]⟩ exampleLines).toOption.map (fun p => p.2.map (·.2)) =
      some [[], [], [], [], [], [],
        [⟨"6", .Artifact "b1" exampleArtifact⟩,
         ⟨"6", .Build ⟨[exampleArtifact]⟩⟩]] := by
  rfl

/-! ### C7: the event log itself always reports Partial -/

/-- C7.  Whenever `EventLog::try_decode` processes a line without a fatal
error, it reports `Partial` to its own caller — also on lines that complete
an artifact or a build — and never reports `Done`. -/
theorem eventlog_never_done (m : EventLog) (input : List String)
    (r : EventLog × List Event × Decoding) (h : m.try_decode input = .ok r) :
    r.2.2 = Decoding.Partial := by
  cases input with
  | nil => simp [EventLog.try_decode, Bind.bind, Except.bind] at h
  | cons t input1 =>
    cases input1 with
    | nil => simp [EventLog.try_decode, Bind.bind, Except.bind, pure, Except.pure] at h
    | cons bn rest =>
      unfold EventLog.try_decode at h
      simp only [List.head?_cons, List.tail_cons, pure_bind] at h
      obtain ⟨p, _, h⟩ := bind_eq_ok_inv h
      obtain ⟨next, emitted⟩ := p
      simp only [pure, Except.pure, Except.ok.injEq] at h
      rw [← h]

/-- Witness for C7 on the build-completing seventh example line: even though
this call completes both an artifact and the build, the call itself reports
`Partial`. -/
theorem eventlog_never_done_witness :
    ((⟨[("b1", PartialBuildLog.Done ⟨[exampleArtifact]⟩)]⟩ : EventLog),
      [(⟨"6", .Artifact "b1" exampleArtifact⟩ : Event),
       ⟨"6", .Build ⟨[exampleArtifact]⟩⟩],
      Decoding.Partial).2.2 = Decoding.Partial :=
  eventlog_never_done exampleLogAfterSix
    ["6", "b1", "artifact", "0", "end"] _ rfl

/-! ### C8: global lines leave the build mapping untouched -/

/-- C8.  A global line (empty build name, `ui` sub-kind `say`/`message`/
`error`) leaves the build-name map exactly unchanged — the resulting
`EventLog` is the input one — and the corresponding UI event, stamped with
the line's timestamp, is emitted during that same call. -/
theorem global_line_frame (m : EventLog) (ts text : String)
    (extra : List String) :
    m.try_decode (ts :: "" :: "ui" :: "say" :: text :: extra) =
      .ok (m, [⟨ts, .UI (.Say text)⟩], Decoding.Partial) ∧
    m.try_decode (ts :: "" :: "ui" :: "message" :: text :: extra) =
      .ok (m, [⟨ts, .UI (.Message text)⟩], Decoding.Partial) ∧
    m.try_decode (ts :: "" :: "ui" :: "error" :: text :: extra) =
      .ok (m, [⟨ts, .UI (.Error text)⟩], Decoding.Partial) :=
  ⟨rfl, rfl, rfl⟩

/-! ### C9: decoding past the terminal state -/

/-- C9.  Any decode call on a decoder already in its terminal `Done` state
is fatal and emits nothing: an artifact decoder fails with the
"already finished" error, and a build decoder fails as unimplemented
(`todo!`).  (A line always carries at least one token, its tag.) -/
theorem decode_after_done (a : Artifact) (b : Build) (message : String)
    (rest : List String) :
    PartialArtifactLog.try_decode (.Done a) (message :: rest) =
      .error .alreadyFinished ∧
    PartialBuildLog.try_decode (.Done b) (message :: rest) =
      .error .todoUnimplemented :=
  ⟨rfl, rfl⟩

/-! ### C6: tag mismatches -/

/-- C6.  In every artifact- or build-decoder state that expects a tag, a
line whose tag token differs from the expected one fails with the fatal
`unexpectedMessage` error carrying the detecting stage ("partial artifact" /
"partial build"), the expected tag and the actual tag; the error result
carries no emission, so no event is emitted for the malformed structure. -/
theorem tag_mismatch_fatal :
    (∀ (st : PartialArtifactLog) (tag message : String) (rest : List String),
      artifactExpects st = some tag → ¬message = tag →
      st.try_decode (message :: rest) =
        .error (.unexpectedMessage "partial artifact" tag message)) ∧
    (∀ (st : PartialBuildLog) (tag message : String) (rest : List String),
      buildExpects st = some tag → ¬message = tag →
      st.try_decode (message :: rest) =
        .error (.unexpectedMessage "partial build" tag message)) := by
  constructor
  · intro st tag message rest hexp hne
    cases st with
    | Root =>
      simp only [artifactExpects, Option.some.injEq] at hexp
      subst hexp
      simp [PartialArtifactLog.try_decode, expect_message, hne, pure, Except.pure,
        Bind.bind, Except.bind]
    | BuilderId b =>
      simp only [artifactExpects, Option.some.injEq] at hexp
      subst hexp
      simp [PartialArtifactLog.try_decode, expect_message, hne, pure, Except.pure,
        Bind.bind, Except.bind]
    | Id b i =>
      simp only [artifactExpects, Option.some.injEq] at hexp
      subst hexp
      simp [PartialArtifactLog.try_decode, expect_message, hne, pure, Except.pure,
        Bind.bind, Except.bind]
    | Str b i s =>
      simp only [artifactExpects, Option.some.injEq] at hexp
      subst hexp
      simp [PartialArtifactLog.try_decode, expect_message, hne, pure, Except.pure,
        Bind.bind, Except.bind]
    | ListingFiles b i s count files =>
      simp only [artifactExpects, Option.some.injEq] at hexp
      subst hexp
      by_cases hc : count = 0
      · subst hc
        simp only [reduceIte] at hne
        simp [PartialArtifactLog.try_decode, expect_message, hne, pure, Except.pure,
          Bind.bind, Except.bind]
      · rw [if_neg hc] at hne
        simp [PartialArtifactLog.try_decode, expect_message, hne, hc, pure, Except.pure,
          Bind.bind, Except.bind]
    | Done a => simp [artifactExpects] at hexp
  · intro st tag message rest hexp hne
    cases st with
    | Root =>
      simp only [buildExpects, Option.some.injEq] at hexp
      subst hexp
      simp [PartialBuildLog.try_decode, expect_message, hne, pure, Except.pure,
        Bind.bind, Except.bind]
    | ListingArtifacts count artifacts =>
      simp only [buildExpects, Option.some.injEq] at hexp
      subst hexp
      simp [PartialBuildLog.try_decode, expect_message, hne, pure, Except.pure,
        Bind.bind, Except.bind]
    | Done b => simp [buildExpects] at hexp

/-- Witness for C6: sending an `id` line while `builder-id` is expected, and
an `id` line while `artifact-count` is expected. -/
theorem tag_mismatch_fatal_witness :
    PartialArtifactLog.try_decode .Root ["id", "x"] =
      .error (.unexpectedMessage "partial artifact" "builder-id" "id") ∧
    PartialBuildLog.try_decode .Root ["id", "x"] =
      .error (.unexpectedMessage "partial build" "artifact-count" "id") :=
  ⟨tag_mismatch_fatal.1 .Root "builder-id" "id" ["x"] rfl (by decide),
   tag_mismatch_fatal.2 .Root "artifact-count" "id" ["x"] rfl (by decide)⟩

/-! ### C5: what completion events carry -/

/-- Counterexample to C5 as stated.  Two builds with the distinct names `b1`
and `b2` but identical content and timestamps are both completed.  The two
artifact-completion events (positions 0 and 2 of the emitted event
sequence) do carry their build names and differ, but the two
build-completion events (positions 1 and 3) are identical, although they
report the completion of differently-named builds: a build-completion event
does not carry — and does not determine — the name of the build that
completed, because `EventKind::Build` has no build-name field. -/
theorem build_event_lacks_name :
    (runEvents ⟨[]⟩ twoBuildLines).toOption.map (fun p => traceEvents p.2) =
      some [⟨"6", .Artifact "b1" exampleArtifact⟩,
            ⟨"6", .Build ⟨[exampleArtifact]⟩⟩,
            ⟨"6", .Artifact "b2" exampleArtifact⟩,
            ⟨"6", .Build ⟨[exampleArtifact]⟩⟩] ∧
    (Event.mk "6" (.Artifact "b1" exampleArtifact) ≠
      Event.mk "6" (.Artifact "b2" exampleArtifact)) ∧
    (Event.mk "6" (.Build ⟨[exampleArtifact]⟩) =
      Event.mk "6" (.Build ⟨[exampleArtifact]⟩)) :=
  ⟨rfl, by decide, rfl⟩

/-- C5 as amended.  Every event a build-scoped line delivers to the consumer
is stamped with that line's timestamp; an artifact-completion event carries
the build name together with the artifact, while a build-completion event
carries only the completed build (no build name). -/
theorem completion_event_shape (m : EventLog) (ts name : String)
    (rest : List String) (hname : ¬name = "") (m1 : EventLog)
    (evs : List Event) (d : Decoding)
    (h : m.try_decode (ts :: name :: rest) = .ok (m1, evs, d)) :
    ∀ e ∈ evs, e.timestamp = ts ∧
      ((∃ a, e.kind = .Artifact name a) ∨ (∃ b, e.kind = .Build b)) := by
  rw [eventlog_decode_build m ts name rest hname] at h
  cases hd : ((lookupBuild m.builds name).getD .Root).try_decode rest with
  | error e => rw [hd] at h; exact absurd h (by simp)
  | ok t =>
    obtain ⟨st1, ems, d1⟩ := t
    rw [hd] at h
    simp only [Except.ok.injEq] at h
    have hevs : evs = ems.map (enrich ts name) := by
      have := congrArg (fun p => p.2.1) h
      simpa using this.symm
    subst hevs
    intro e he
    obtain ⟨k, _, hk⟩ := List.mem_map.mp he
    subst hk
    cases k with
    | Artifact a => exact ⟨rfl, Or.inl ⟨a, rfl⟩⟩
    | Done b => exact ⟨rfl, Or.inr ⟨b, rfl⟩⟩

/-- Witness for the amended C5, on the build-completing seventh example
line: the artifact-completion event of that line satisfies the shape. -/
theorem completion_event_shape_witness :
    (Event.mk "6" (.Artifact "b1" exampleArtifact)).timestamp = "6" ∧
    ((∃ a, (Event.mk "6" (.Artifact "b1" exampleArtifact)).kind =
        .Artifact "b1" a) ∨
     (∃ b, (Event.mk "6" (.Artifact "b1" exampleArtifact)).kind = .Build b)) :=
  completion_event_shape exampleLogAfterSix "6" "b1" ["artifact", "0", "end"]
    (by decide) ⟨[("b1", .Done ⟨[exampleArtifact]⟩)]⟩
    [⟨"6", .Artifact "b1" exampleArtifact⟩, ⟨"6", .Build ⟨[exampleArtifact]⟩⟩]
    Decoding.Partial rfl
    ⟨"6", .Artifact "b1" exampleArtifact⟩ (by simp)

/-! ### File-slot lemmas -/

theorem setSlots_length (ps : List (Nat × String × String)) :
    ∀ base, (setSlots base ps).length = base.length := by
  induction ps with
  | nil => intro base; rfl
  | cons p ps ih => intro base; rw [setSlots, ih, List.length_set]

theorem setSlots_append (ps qs : List (Nat × String × String)) :
    ∀ base, setSlots base (ps ++ qs) = setSlots (setSlots base ps) qs := by
  induction ps with
  | nil => intro base; rfl
  | cons p ps ih => intro base; rw [List.cons_append, setSlots, setSlots, ih]

theorem setSlots_getElem_not_mem (ps : List (Nat × String × String)) (j : Nat)
    (hj : j ∉ ps.map Prod.fst) :
    ∀ base, (setSlots base ps)[j]? = base[j]? := by
  induction ps with
  | nil => intro base; rfl
  | cons p ps ih =>
    intro base
    simp only [List.map_cons, List.mem_cons, not_or] at hj
    rw [setSlots, ih hj.2, List.getElem?_set_ne (Ne.symm hj.1)]

theorem setSlots_getElem_mem (ps : List (Nat × String × String)) :
    ∀ base, (ps.map Prod.fst).Nodup → ∀ p ∈ ps, p.1 < base.length →
      (setSlots base ps)[p.1]? = some (some p.2.2) := by
  induction ps with
  | nil => intro base _ p hp; cases hp
  | cons q ps ih =>
    intro base hnd p hp hlen
    simp only [List.map_cons, List.nodup_cons] at hnd
    rcases List.mem_cons.mp hp with h | h
    · subst h
      rw [setSlots, setSlots_getElem_not_mem ps p.1 hnd.1,
        List.getElem?_set_eq_of_lt _ hlen]
    · exact ih _ hnd.2 p h (by rw [List.length_set]; exact hlen)

/-- A duplicate-free list of `n` naturals below `n` contains every `j < n`. -/
theorem mem_of_nodup_full (is : List Nat) (n : Nat) (hlen : is.length = n)
    (hnd : is.Nodup) (hlt : ∀ x ∈ is, x < n) : ∀ j, j < n → j ∈ is := by
  intro j hj
  have hsub : is.toFinset ⊆ Finset.range n := by
    intro x hx
    exact Finset.mem_range.mpr (hlt x (List.mem_toFinset.mp hx))
  have hcard : (Finset.range n).card ≤ is.toFinset.card := by
    rw [Finset.card_range, List.toFinset_card_of_nodup hnd, hlen]
  have heq : is.toFinset = Finset.range n :=
    Finset.eq_of_subset_of_card_le hsub hcard
  have hmem : j ∈ is.toFinset := by rw [heq]; exact Finset.mem_range.mpr hj
  exact List.mem_toFinset.mp hmem

/-- A list of `n` naturals below `n` with a duplicate misses some `j < n`. -/
theorem exists_not_mem_of_not_nodup (is : List Nat) (n : Nat)
    (hlen : is.length = n) (_hlt : ∀ x ∈ is, x < n) (hnd : ¬is.Nodup) :
    ∃ j, j < n ∧ j ∉ is := by
  by_contra hcon
  push_neg at hcon
  have hsub : Finset.range n ⊆ is.toFinset := by
    intro j hj
    exact List.mem_toFinset.mpr (hcon j (Finset.mem_range.mp hj))
  have h1 : n ≤ is.toFinset.card := by
    have := Finset.card_le_card hsub
    simpa [Finset.card_range] using this
  have h2 : is.toFinset.card ≤ is.length := List.toFinset_card_le is
  have h3 : is.toFinset.card = is.length := le_antisymm h2 (hlen ▸ h1)
  apply hnd
  have h4 : (↑is : Multiset Nat).toFinset.card = Multiset.card (↑is : Multiset Nat) := by
    simpa using h3
  simpa using Multiset.toFinset_card_eq_card_iff_nodup.mp h4

theorem unwrapAll_eq (l : List (Option String)) (h : ∀ o ∈ l, o.isSome) :
    unwrapAll l = .ok (l.map (fun o => o.getD "")) := by
  induction l with
  | nil => rfl
  | cons o l ih =>
    cases o with
    | none => exact absurd (h none (List.mem_cons_self _ _)) (by simp)
    | some s =>
      rw [unwrapAll, ih (fun o ho => h o (List.mem_cons_of_mem _ ho))]
      rfl

theorem unwrapAll_error_of_none (l : List (Option String)) (h : none ∈ l) :
    unwrapAll l = .error (.unwrapFailure "file slot") := by
  induction l with
  | nil => cases h
  | cons o l ih =>
    cases o with
    | none => rfl
    | some s =>
      have hl : none ∈ l := by
        rcases List.mem_cons.mp h with h1 | h1
        · cases h1
        · exact h1
      rw [unwrapAll, ih hl]
      rfl

/-- Under well-formedness every slot of the filled file array is occupied. -/
theorem setSlots_full (A : ArtSpec) (h : A.WF) :
    ∀ o ∈ setSlots (List.replicate A.n none) A.ps, o.isSome := by
  obtain ⟨hcount, hlen, hnd, hps⟩ := h
  intro o ho
  obtain ⟨j, hj, hjo⟩ := List.mem_iff_getElem.mp ho
  have hjn : j < A.n := by
    have := hj
    rwa [setSlots_length, List.length_replicate] at this
  have hcov : j ∈ A.ps.map Prod.fst := by
    refine mem_of_nodup_full (A.ps.map Prod.fst) A.n ?_ hnd ?_ j hjn
    · rw [List.length_map, hlen]
    · intro x hx
      obtain ⟨p, hp, hpx⟩ := List.mem_map.mp hx
      exact hpx ▸ (hps p hp).1
  obtain ⟨p, hp, hpj⟩ := List.mem_map.mp hcov
  have hget := setSlots_getElem_mem A.ps (List.replicate A.n none) hnd p hp
    (by rw [List.length_replicate]; exact hpj ▸ hjn)
  rw [hpj] at hget
  have h5 : (setSlots (List.replicate A.n none) A.ps)[j]? = some o := by
    rw [List.getElem?_eq_getElem hj, hjo]
  rw [h5] at hget
  rw [Option.some.inj hget]
  rfl

theorem unwrapAll_setSlots (A : ArtSpec) (h : A.WF) :
    unwrapAll (setSlots (List.replicate A.n none) A.ps) = .ok A.finalFiles :=
  unwrapAll_eq _ (setSlots_full A h)

theorem finalFiles_length (A : ArtSpec) : A.finalFiles.length = A.n := by
  rw [ArtSpec.finalFiles, List.length_map, setSlots_length, List.length_replicate]

/-- The completed files sequence holds each declared name at its declared
slot. -/
theorem finalFiles_spec (A : ArtSpec) (h : A.WF) :
    ∀ p ∈ A.ps, A.finalFiles[p.1]? = some p.2.2 := by
  intro p hp
  obtain ⟨hcount, hlen, hnd, hps⟩ := h
  have hlt : p.1 < (List.replicate A.n (none : Option String)).length := by
    rw [List.length_replicate]; exact (hps p hp).1
  have hg := setSlots_getElem_mem A.ps _ hnd p hp hlt
  rw [ArtSpec.finalFiles, List.getElem?_map, hg]
  rfl

/-! ### Single-line artifact decode steps -/

theorem decode_root (b : String) (extra : List String) :
    PartialArtifactLog.try_decode .Root ("builder-id" :: b :: extra) =
      .ok (.BuilderId b, [], .Partial) := rfl

theorem decode_id (b tok : String) (extra : List String) :
    PartialArtifactLog.try_decode (.BuilderId b) ("id" :: tok :: extra) =
      .ok (.Id b (idVal tok), [], .Partial) := rfl

theorem decode_string (b : String) (i : Option String) (s : String)
    (extra : List String) :
    PartialArtifactLog.try_decode (.Id b i) ("string" :: s :: extra) =
      .ok (.Str b i s, [], .Partial) := rfl

theorem decode_files_count (b : String) (i : Option String) (s tok : String)
    (n : Nat) (extra : List String) (h : parseNat tok = some n) :
    PartialArtifactLog.try_decode (.Str b i s) ("files-count" :: tok :: extra) =
      .ok (.ListingFiles b i s n (List.replicate n none), [], .Partial) := by
  unfold PartialArtifactLog.try_decode
  simp [h, expect_message, pure, Except.pure, Bind.bind, Except.bind]

theorem decode_file (b : String) (i : Option String) (s : String)
    (count : Nat) (files : List (Option String)) (file_id : Nat)
    (tok name : String) (extra : List String) (hc : ¬count = 0)
    (htok : parseNat tok = some file_id) (hlt : file_id < files.length) :
    PartialArtifactLog.try_decode (.ListingFiles b i s count files)
        ("file" :: tok :: name :: extra) =
      .ok (.ListingFiles b i s (count - 1) (files.set file_id (some name)),
        [], .Partial) := by
  unfold PartialArtifactLog.try_decode
  simp [hc, htok, hlt, expect_message, pure, Except.pure, Bind.bind, Except.bind]

theorem decode_end (b : String) (i : Option String) (s : String)
    (files : List (Option String)) (names : List String)
    (extra : List String) (hu : unwrapAll files = .ok names) :
    PartialArtifactLog.try_decode (.ListingFiles b i s 0 files)
        ("end" :: extra) =
      .ok (.Done ⟨b, i, names⟩, [(⟨b, i, names⟩ : Artifact)], .Done) := by
  unfold PartialArtifactLog.try_decode
  simp [hu, expect_message, pure, Except.pure, Bind.bind, Except.bind]

theorem decode_end_fail (b : String) (i : Option String) (s : String)
    (files : List (Option String)) (e : DecodeError)
    (extra : List String) (hu : unwrapAll files = .error e) :
    PartialArtifactLog.try_decode (.ListingFiles b i s 0 files)
        ("end" :: extra) = .error e := by
  unfold PartialArtifactLog.try_decode
  simp [hu, expect_message, pure, Except.pure, Bind.bind, Except.bind]

/-! ### The artifact decoder along its canonical line sequence -/

theorem lines_length (A : ArtSpec) : A.lines.length = A.ps.length + 5 := by
  simp only [ArtSpec.lines, headerLines, List.length_append, List.length_map,
    List.length_cons, List.length_nil]
  omega

theorem lines_drop_four (A : ArtSpec) (j : Nat) :
    A.lines.drop (j + 4) = (A.ps.map fileLine ++ [["end"]]).drop j := by
  show List.drop (j + 4)
    (_ :: _ :: _ :: _ :: (A.ps.map fileLine ++ [["end"]])) = _
  rw [show j + 4 = (j + 3) + 1 from rfl, List.drop_succ_cons,
    show j + 3 = (j + 2) + 1 from rfl, List.drop_succ_cons,
    show j + 2 = (j + 1) + 1 from rfl, List.drop_succ_cons,
    List.drop_succ_cons]

theorem stateAt_files (A : ArtSpec) (j : Nat) (hj : j ≤ A.ps.length) :
    A.stateAt (j + 4) = .ListingFiles A.builderTok (idVal A.idTok) A.strTok
      (A.n - j) (setSlots (List.replicate A.n none) (A.ps.take j)) := by
  show (if j ≤ A.ps.length then _ else _) = _
  rw [if_pos hj]

theorem stateAt_done (A : ArtSpec) (j : Nat) (hj : ¬j ≤ A.ps.length) :
    A.stateAt (j + 4) = .Done A.artifact := by
  show (if j ≤ A.ps.length then _ else _) = _
  rw [if_neg hj]

/-- One step of the artifact decoder along its canonical line sequence: if
line `k` exists (with `rest` the lines after it), decoding it from the state
after `k` lines succeeds, reaches the state after `k+1` lines, emits the
completed artifact exactly when this was the final (`end`) line, and
reports `Done` exactly then. -/
theorem artifact_step (A : ArtSpec) (hWF : A.WF) (k : Nat) (l : List String)
    (rest : List (List String)) (h : A.lines.drop k = l :: rest) :
    (A.stateAt k).try_decode l = .ok (A.stateAt (k + 1),
      if rest.isEmpty then [A.artifact] else [],
      if rest.isEmpty then Decoding.Done else Decoding.Partial) := by
  obtain ⟨hcount, hlen, hnd, hps⟩ := hWF
  obtain _ | _ | _ | _ | j := k
  · -- k = 0 : builder-id line
    rw [List.drop_zero] at h
    rw [show A.lines = ["builder-id", A.builderTok] :: ["id", A.idTok] ::
      ["string", A.strTok] :: ["files-count", A.countTok] ::
      (A.ps.map fileLine ++ [["end"]]) from rfl] at h
    obtain ⟨hl, hrest⟩ := List.cons.inj h
    subst hl; subst hrest
    rw [show A.stateAt 0 = .Root from rfl, decode_root]
    rfl
  · -- k = 1 : id line
    rw [show A.lines.drop 1 = ["id", A.idTok] ::
      (["string", A.strTok] :: ["files-count", A.countTok] ::
      (A.ps.map fileLine ++ [["end"]])) from rfl] at h
    obtain ⟨hl, hrest⟩ := List.cons.inj h
    subst hl; subst hrest
    rw [show A.stateAt 1 = .BuilderId A.builderTok from rfl, decode_id]
    rfl
  · -- k = 2 : string line
    rw [show A.lines.drop 2 = ["string", A.strTok] ::
      (["files-count", A.countTok] :: (A.ps.map fileLine ++ [["end"]]))
      from rfl] at h
    obtain ⟨hl, hrest⟩ := List.cons.inj h
    subst hl; subst hrest
    rw [show A.stateAt 2 = .Id A.builderTok (idVal A.idTok) from rfl,
      decode_string]
    rfl
  · -- k = 3 : files-count line
    rw [show A.lines.drop 3 = ["files-count", A.countTok] ::
      (A.ps.map fileLine ++ [["end"]]) from rfl] at h
    obtain ⟨hl, hrest⟩ := List.cons.inj h
    subst hl; subst hrest
    rw [show A.stateAt 3 = .Str A.builderTok (idVal A.idTok) A.strTok from rfl,
      decode_files_count A.builderTok (idVal A.idTok) A.strTok A.countTok A.n _
        hcount]
    have hne : ¬(A.ps.map fileLine ++ [["end"]]).isEmpty = true := by
      simp
    rw [if_neg hne, if_neg hne]
    rw [show A.stateAt (0 + 1 + 1 + 1 + 1) = A.stateAt (0 + 4) from rfl,
      stateAt_files A 0 (Nat.zero_le _)]
    rfl
  · -- k = j + 4 : a file line or the end line
    rw [lines_drop_four] at h
    have hj : j ≤ A.ps.length := by
      by_contra hgt
      push_neg at hgt
      rw [List.drop_eq_nil_of_le (by
        simp only [List.length_append, List.length_map, List.length_cons,
          List.length_nil]
        omega)] at h
      cases h
    rcases Nat.lt_or_ge j A.ps.length with hjlt | hjge
    · -- a file line
      have hjm : j < (A.ps.map fileLine).length := by
        rw [List.length_map]; exact hjlt
      rw [List.drop_append_of_le_length (Nat.le_of_lt hjm),
        List.drop_eq_getElem_cons hjm, List.cons_append] at h
      obtain ⟨hl, hrest⟩ := List.cons.inj h
      have hgl : (A.ps.map fileLine)[j] = fileLine A.ps[j] := by
        rw [List.getElem_map]
      rw [hgl] at hl
      subst hl; subst hrest
      have hmem : A.ps[j] ∈ A.ps := List.getElem_mem _
      rw [show j + 4 + 1 = (j + 1) + 4 from rfl, stateAt_files A j hj,
        stateAt_files A (j + 1) (by omega)]
      rw [show fileLine A.ps[j] =
        "file" :: (A.ps[j]).2.1 :: (A.ps[j]).2.2 :: [] from rfl]
      rw [decode_file A.builderTok (idVal A.idTok) A.strTok (A.n - j) _
        (A.ps[j]).1 _ _ _ (by omega) (hps _ hmem).2
        (by rw [setSlots_length, List.length_replicate]; exact (hps _ hmem).1)]
      have hre : ¬((A.ps.map fileLine).drop (j + 1) ++ [["end"]]).isEmpty = true := by
        simp
      rw [if_neg hre, if_neg hre]
      have hset : (setSlots (List.replicate A.n none) (A.ps.take j)).set
          (A.ps[j]).1 (some (A.ps[j]).2.2) =
          setSlots (List.replicate A.n none) (A.ps.take (j + 1)) := by
        rw [List.take_succ, List.getElem?_eq_getElem hjlt]
        rw [setSlots_append]
        rfl
      rw [hset, Nat.sub_sub]
    · -- the end line
      have hje : j = A.ps.length := le_antisymm hj hjge
      subst hje
      rw [List.drop_append_of_le_length (by rw [List.length_map]),
        List.drop_eq_nil_of_le (by rw [List.length_map]),
        List.nil_append] at h
      obtain ⟨hl, hrest⟩ := List.cons.inj h
      subst hl; subst hrest
      rw [stateAt_files A A.ps.length (le_refl _), List.take_length]
      have hz : A.n - A.ps.length = 0 := by omega
      rw [hz]
      rw [decode_end A.builderTok (idVal A.idTok) A.strTok _ A.finalFiles _
        (unwrapAll_setSlots A ⟨hcount, hlen, hnd, hps⟩)]
      rw [show A.ps.length + 4 + 1 = (A.ps.length + 1) + 4 from rfl,
        stateAt_done A (A.ps.length + 1) (by omega)]
      rfl

/-! ### Runs of the artifact decoder -/

theorem runArtifact_cons_ok (st : PartialArtifactLog) (l : List String)
    (ls : List (List String)) (st1 : PartialArtifactLog) (ems : List Artifact)
    (dec : Decoding) (h : st.try_decode l = .ok (st1, ems, dec)) :
    runArtifact st (l :: ls) =
      (runArtifact st1 ls).map (fun q => (q.1, ems ++ q.2)) := by
  rw [runArtifact, h]
  cases hr : runArtifact st1 ls with
  | error e => simp [Bind.bind, Except.bind, Except.map, hr]
  | ok q =>
    obtain ⟨st2, ems2⟩ := q
    simp [Bind.bind, Except.bind, Except.map, hr, pure, Except.pure]

theorem runArtifact_cons_err (st : PartialArtifactLog) (l : List String)
    (ls : List (List String)) (e : DecodeError)
    (h : st.try_decode l = .error e) :
    runArtifact st (l :: ls) = .error e := by
  rw [runArtifact, h]
  rfl

/-- Running the four header lines from `Root` reaches `ListingFiles` with the
declared count and an empty slot array, emitting nothing. -/
theorem runHeader (A : ArtSpec) (h : parseNat A.countTok = some A.n) :
    runArtifact .Root (headerLines A) =
      .ok (.ListingFiles A.builderTok (idVal A.idTok) A.strTok A.n
        (List.replicate A.n none), []) := by
  rw [headerLines,
    runArtifact_cons_ok _ _ _ _ _ _ (decode_root A.builderTok []),
    runArtifact_cons_ok _ _ _ _ _ _ (decode_id A.builderTok A.idTok []),
    runArtifact_cons_ok _ _ _ _ _ _
      (decode_string A.builderTok (idVal A.idTok) A.strTok []),
    runArtifact_cons_ok _ _ _ _ _ _
      (decode_files_count A.builderTok (idVal A.idTok) A.strTok A.countTok A.n
        [] h)]
  rfl

/-- Running any list of in-range file lines (duplicates allowed) decrements
the remaining count once per line, writes each name into its slot in arrival
order, and emits nothing. -/
theorem runFiles (ps : List (Nat × String × String)) :
    ∀ (b : String) (i : Option String) (s : String) (c : Nat)
      (files : List (Option String)),
      (∀ p ∈ ps, parseNat p.2.1 = some p.1 ∧ p.1 < files.length) →
      ps.length ≤ c →
      runArtifact (.ListingFiles b i s c files) (ps.map fileLine) =
        .ok (.ListingFiles b i s (c - ps.length) (setSlots files ps), []) := by
  induction ps with
  | nil =>
    intro b i s c files hp hc
    simp [runArtifact, setSlots]
  | cons p ps ih =>
    intro b i s c files hp hc
    have hc0 : ¬c = 0 := by
      simp only [List.length_cons] at hc
      omega
    have hphead := hp p (List.mem_cons_self _ _)
    rw [List.map_cons,
      show fileLine p = "file" :: p.2.1 :: p.2.2 :: [] from rfl,
      runArtifact_cons_ok _ _ _ _ _ _
        (decode_file b i s c files p.1 p.2.1 p.2.2 [] hc0 hphead.1 hphead.2),
      ih b i s (c - 1) (files.set p.1 (some p.2.2))
        (fun q hq => ⟨(hp q (List.mem_cons_of_mem _ hq)).1,
          by rw [List.length_set]; exact (hp q (List.mem_cons_of_mem _ hq)).2⟩)
        (by simp only [List.length_cons] at hc; omega)]
    have hcnt : c - 1 - ps.length = c - (p :: ps).length := by
      simp only [List.length_cons]
      omega
    rw [hcnt]
    rfl

theorem runArtifact_append_ok (xs ys : List (List String)) :
    ∀ (st st1 : PartialArtifactLog) (ems1 : List Artifact),
      runArtifact st xs = .ok (st1, ems1) →
      runArtifact st (xs ++ ys) =
        (runArtifact st1 ys).map (fun q => (q.1, ems1 ++ q.2)) := by
  induction xs with
  | nil =>
    intro st st1 ems1 h
    simp only [runArtifact, Except.ok.injEq, Prod.mk.injEq] at h
    obtain ⟨h1, h2⟩ := h
    subst h1; subst h2
    rw [List.nil_append]
    cases hr : runArtifact st ys with
    | error e => simp [Except.map]
    | ok q => simp [Except.map]
  | cons l ls ih =>
    intro st st1 ems1 h
    cases hd : st.try_decode l with
    | error e =>
      rw [runArtifact_cons_err _ _ _ _ hd] at h
      cases h
    | ok t =>
      obtain ⟨sta, ems, dec⟩ := t
      rw [runArtifact_cons_ok _ _ _ _ _ _ hd] at h
      cases hr : runArtifact sta ls with
      | error e => rw [hr] at h; cases h
      | ok q =>
        obtain ⟨st2, ems2⟩ := q
        rw [hr] at h
        simp only [Except.map, Except.ok.injEq, Prod.mk.injEq] at h
        obtain ⟨h1, h2⟩ := h
        subst h1; subst h2
        rw [List.cons_append, runArtifact_cons_ok _ _ _ _ _ _ hd,
          ih sta st2 ems2 hr]
        cases hy : runArtifact st2 ys with
        | error e => simp [Except.map]
        | ok q => simp [Except.map]

theorem lines_dropLast (A : ArtSpec) :
    A.lines.dropLast = headerLines A ++ A.ps.map fileLine := by
  rw [ArtSpec.lines, List.dropLast_concat]

/-- From the state after `k` lines, the remaining lines of the canonical
sequence decode to `Done`, emitting the completed artifact exactly once
(unless no line remains at all). -/
theorem runArtifact_from (A : ArtSpec) (hWF : A.WF) :
    ∀ (m k : Nat), k + m = A.ps.length + 5 →
      runArtifact (A.stateAt k) (A.lines.drop k) =
        .ok (.Done A.artifact,
          if k = A.ps.length + 5 then [] else [A.artifact]) := by
  intro m
  induction m with
  | zero =>
    intro k hk
    simp only [Nat.add_zero] at hk
    subst hk
    rw [List.drop_eq_nil_of_le (by rw [lines_length])]
    rw [show A.ps.length + 5 = (A.ps.length + 1) + 4 from rfl,
      stateAt_done A (A.ps.length + 1) (by omega)]
    rw [if_pos rfl]
    rfl
  | succ m ih =>
    intro k hk
    have hklt : k < A.lines.length := by rw [lines_length]; omega
    rw [List.drop_eq_getElem_cons hklt,
      runArtifact_cons_ok _ _ _ _ _ _
        (artifact_step A hWF k _ _ (List.drop_eq_getElem_cons hklt)),
      ih (k + 1) (by omega)]
    by_cases hend : k + 1 = A.ps.length + 5
    · have hrest : A.lines.drop (k + 1) = [] :=
        List.drop_eq_nil_of_le (by rw [lines_length]; omega)
      rw [hrest]
      simp [Except.map, hend, if_neg (show ¬k = A.ps.length + 5 by omega)]
    · have hlt2 : k + 1 < A.lines.length := by rw [lines_length]; omega
      rw [List.drop_eq_getElem_cons hlt2]
      simp [Except.map, hend, if_neg (show ¬k = A.ps.length + 5 by omega)]
      exact hlt2

/-- C1.  For every artifact whose complete line sequence is fed in grammar
order — builder-id, id, string, files-count `n`, then `n` file lines with
distinct in-range slot indices in arbitrary order, then end — the artifact
decoder succeeds, emits exactly one completed artifact, fired on the end
line (the run without the end line emits nothing and is still partial), and
the artifact's files sequence has the declared length and holds each
declared file name at its declared slot index, i.e. the names arranged in
ascending slot order. -/
theorem artifact_decode_complete (A : ArtSpec) (hWF : A.WF) :
    runArtifact .Root A.lines = .ok (.Done A.artifact, [A.artifact]) ∧
    runArtifact .Root A.lines.dropLast =
      .ok (.ListingFiles A.builderTok (idVal A.idTok) A.strTok 0
        (setSlots (List.replicate A.n none) A.ps), []) ∧
    A.artifact.files.length = A.n ∧
    ∀ p ∈ A.ps, A.artifact.files[p.1]? = some p.2.2 := by
  obtain ⟨hcount, hlen, hnd, hps⟩ := hWF
  refine ⟨?_, ?_, finalFiles_length A, finalFiles_spec A ⟨hcount, hlen, hnd, hps⟩⟩
  · have h := runArtifact_from A ⟨hcount, hlen, hnd, hps⟩ (A.ps.length + 5) 0
      (by omega)
    rw [List.drop_zero, show A.stateAt 0 = .Root from rfl,
      if_neg (by omega : ¬(0 : Nat) = A.ps.length + 5)] at h
    exact h
  · rw [lines_dropLast,
      runArtifact_append_ok _ _ _ _ _ (runHeader A hcount),
      runFiles A.ps A.builderTok (idVal A.idTok) A.strTok A.n
        (List.replicate A.n none)
        (fun p hp => ⟨(hps p hp).2, by
          rw [List.length_replicate]; exact (hps p hp).1⟩)
        (by omega)]
    rw [show A.n - A.ps.length = 0 by omega]
    rfl

/-- Witness for C1 at a concrete two-file artifact whose file lines arrive
in descending slot order: the decode emits the artifact once with the files
in ascending slot order. -/
theorem artifact_decode_complete_witness :
    witnessArt.WF ∧
    runArtifact .Root witnessArt.lines =
      .ok (.Done ⟨"pkgB", some "idX", ["a.txt", "b.txt"]⟩,
        [(⟨"pkgB", some "idX", ["a.txt", "b.txt"]⟩ : Artifact)]) :=
  ⟨by unfold ArtSpec.WF; decide, by
    have h := (artifact_decode_complete witnessArt (by unfold ArtSpec.WF; decide)).1
    rwa [show witnessArt.artifact = ⟨"pkgB", some "idX", ["a.txt", "b.txt"]⟩
      from rfl] at h⟩

/-! ### C10: duplicate slot indices within one artifact -/

/-- C10.  If among an artifact's `n ≥ 2` file lines two carry the same slot
index (all indices in range, exactly `n` file lines), the remaining count
still reaches 0 after the `n` file lines — it is decremented once per file
line, not once per newly filled slot — with nothing emitted, some slot is
left unfilled, and the subsequent `end` line is a fatal error, so no
artifact-completion event carrying fewer than `n` files is ever emitted. -/
theorem duplicate_slot_fatal_end (A : ArtSpec)
    (hcount : parseNat A.countTok = some A.n)
    (hlen : A.ps.length = A.n)
    (hps : ∀ p ∈ A.ps, p.1 < A.n ∧ parseNat p.2.1 = some p.1)
    (hdup : ¬(A.ps.map Prod.fst).Nodup)
    (_hn : 2 ≤ A.n) :
    runArtifact .Root A.lines.dropLast =
      .ok (.ListingFiles A.builderTok (idVal A.idTok) A.strTok 0
        (setSlots (List.replicate A.n none) A.ps), []) ∧
    (∃ j, j < A.n ∧ (setSlots (List.replicate A.n none) A.ps)[j]? = some none) ∧
    runArtifact .Root A.lines = .error (.unwrapFailure "file slot") := by
  have hpre : runArtifact .Root A.lines.dropLast =
      .ok (.ListingFiles A.builderTok (idVal A.idTok) A.strTok 0
        (setSlots (List.replicate A.n none) A.ps), []) := by
    rw [lines_dropLast,
      runArtifact_append_ok _ _ _ _ _ (runHeader A hcount),
      runFiles A.ps A.builderTok (idVal A.idTok) A.strTok A.n
        (List.replicate A.n none)
        (fun p hp => ⟨(hps p hp).2, by
          rw [List.length_replicate]; exact (hps p hp).1⟩)
        (by omega)]
    rw [show A.n - A.ps.length = 0 by omega]
    rfl
  obtain ⟨j, hj, hjm⟩ := exists_not_mem_of_not_nodup (A.ps.map Prod.fst) A.n
    (by rw [List.length_map, hlen])
    (fun x hx => by
      obtain ⟨p, hp, hpx⟩ := List.mem_map.mp hx
      exact hpx ▸ (hps p hp).1)
    hdup
  have hslot : (setSlots (List.replicate A.n none) A.ps)[j]? = some none := by
    rw [setSlots_getElem_not_mem A.ps j hjm, List.getElem?_replicate, if_pos hj]
  refine ⟨hpre, ⟨j, hj, hslot⟩, ?_⟩
  have hmem : (none : Option String) ∈ setSlots (List.replicate A.n none) A.ps := by
    have hjlen : j < (setSlots (List.replicate A.n none) A.ps).length := by
      rw [setSlots_length, List.length_replicate]; exact hj
    rw [List.getElem?_eq_getElem hjlen] at hslot
    have hmem0 : (setSlots (List.replicate A.n none) A.ps)[j] ∈
        setSlots (List.replicate A.n none) A.ps := List.getElem_mem hjlen
    rwa [Option.some.inj hslot] at hmem0
  have hfail := decode_end_fail A.builderTok (idVal A.idTok) A.strTok
    (setSlots (List.replicate A.n none) A.ps) (.unwrapFailure "file slot") []
    (unwrapAll_error_of_none _ hmem)
  rw [show A.lines = A.lines.dropLast ++ [["end"]] by
      rw [lines_dropLast, ArtSpec.lines],
    runArtifact_append_ok _ _ _ _ _ hpre,
    runArtifact_cons_err _ _ _ _ hfail]
  rfl

/-- Witness for C10: two file lines both filling slot 0 of a two-slot
artifact; the `end` line fails and nothing is ever emitted. -/
theorem duplicate_slot_fatal_end_witness :
    runArtifact .Root dupArt.lines = .error (.unwrapFailure "file slot") ∧
    runArtifact .Root dupArt.lines.dropLast =
      .ok (.ListingFiles "pkgC" none "d" 0 [some "y.txt", none], []) :=
  have h := duplicate_slot_fatal_end dupArt (by decide) (by decide)
    (by decide) (by decide) (by decide)
  ⟨h.2.2, by
    have h1 := h.1
    rwa [show setSlots (List.replicate dupArt.n none) dupArt.ps =
      [some "y.txt", none] from rfl] at h1⟩

/-! ### Build decoder steps and counting -/

theorem decode_artifact_count (tok : String) (n : Nat) (extra : List String)
    (h : parseNat tok = some n) :
    PartialBuildLog.try_decode .Root ("artifact-count" :: tok :: extra) =
      .ok (.ListingArtifacts n (List.replicate n none), [], .Partial) := by
  unfold PartialBuildLog.try_decode
  simp [h, expect_message, pure, Except.pure, Bind.bind, Except.bind]

/-- The build decoder on an `artifact` line, given the delegated artifact
decode's successful result: the slot is updated, the count decremented
exactly when the artifact completed, and the build finalized when the count
reaches zero. -/
theorem decode_artifact_line (count : Nat)
    (artifacts : List (Option PartialArtifactLog)) (sTok : String) (s : Nat)
    (sub : List String) (htok : parseNat sTok = some s)
    (hs : s < artifacts.length) (st1 : PartialArtifactLog)
    (ems : List Artifact) (dec : Decoding)
    (hinner : ((artifacts.get ⟨s, hs⟩).getD .Root).try_decode sub =
      .ok (st1, ems, dec)) :
    PartialBuildLog.try_decode (.ListingArtifacts count artifacts)
        ("artifact" :: sTok :: sub) =
      (if (if dec = Decoding.Done then count - 1 else count) = 0 then
        match finalizeSlots (artifacts.set s (some st1)) with
        | .error e => .error e
        | .ok arts => .ok (.Done ⟨arts⟩,
            ems.map BuildLogEventKind.Artifact ++ [.Done ⟨arts⟩], .Done)
      else
        .ok (.ListingArtifacts
            (if dec = Decoding.Done then count - 1 else count)
            (artifacts.set s (some st1)),
          ems.map BuildLogEventKind.Artifact, .Partial)) := by
  unfold PartialBuildLog.try_decode
  simp only [List.head?_cons, List.tail_cons, pure_bind, htok]
  rw [dif_pos hs]
  simp only [List.get_eq_getElem] at hinner ⊢
  rw [hinner]
  show (do
    let __discr ← (do
      let _ ← expect_message "partial build" "artifact" "artifact"
      (if (if dec = Decoding.Done then count - 1 else count) = 0 then
        match finalizeSlots (artifacts.set s (some st1)) with
        | .error e => .error e
        | .ok arts => pure (PartialBuildLog.Done ⟨arts⟩,
            ems.map BuildLogEventKind.Artifact ++ [BuildLogEventKind.Done ⟨arts⟩])
      else
        pure (PartialBuildLog.ListingArtifacts
            (if dec = Decoding.Done then count - 1 else count)
            (artifacts.set s (some st1)),
          ems.map BuildLogEventKind.Artifact)) : Except DecodeError _)
    pure (__discr.1, __discr.2,
      match __discr.1 with
      | PartialBuildLog.Done _ => Decoding.Done
      | _ => Decoding.Partial)) = _
  rw [show expect_message "partial build" "artifact" "artifact" = .ok () from rfl]
  by_cases hz : (if dec = Decoding.Done then count - 1 else count) = 0
  · rw [if_pos hz, if_pos hz]
    cases hf : finalizeSlots (artifacts.set s (some st1)) with
    | error e =>
      simp [hf, Bind.bind, Except.bind, pure, Except.pure]
    | ok arts =>
      simp [hf, Bind.bind, Except.bind, pure, Except.pure]
  · rw [if_neg hz, if_neg hz]
    simp [Bind.bind, Except.bind, pure, Except.pure]

theorem runBuild_cons_ok (st : PartialBuildLog) (l : List String)
    (ls : List (List String)) (st1 : PartialBuildLog)
    (ems : List BuildLogEventKind) (dec : Decoding)
    (h : st.try_decode l = .ok (st1, ems, dec)) :
    runBuild st (l :: ls) =
      (runBuild st1 ls).map (fun q => (q.1, ems ++ q.2)) := by
  rw [runBuild, h]
  cases hr : runBuild st1 ls with
  | error e => simp [Bind.bind, Except.bind, Except.map, hr]
  | ok q =>
    obtain ⟨st2, ems2⟩ := q
    simp [Bind.bind, Except.bind, Except.map, hr, pure, Except.pure]

theorem countIncomplete_zero (R : List (List (List String)))
    (h : countIncomplete R = 0) : ∀ r ∈ R, r = [] := by
  induction R with
  | nil => intro r hr; cases hr
  | cons a R ih =>
    intro r hr
    rw [countIncomplete] at h
    by_cases ha : a.isEmpty
    · rcases List.mem_cons.mp hr with h1 | h1
      · exact h1 ▸ List.isEmpty_iff.mp ha
      · exact ih (by omega) r h1
    · rw [if_neg ha] at h
      omega

theorem countIncomplete_all_nonempty (R : List (List (List String)))
    (h : ∀ r ∈ R, ¬r = []) : countIncomplete R = R.length := by
  induction R with
  | nil => rfl
  | cons a R ih =>
    rw [countIncomplete, List.length_cons,
      if_neg (fun hh => h a (List.mem_cons_self _ _) (List.isEmpty_iff.mp hh)),
      ih (fun r hr => h r (List.mem_cons_of_mem _ hr))]
    omega

theorem countIncomplete_set (R : List (List (List String))) :
    ∀ (s : Nat) (r ls : List (List String)), R[s]? = some r → ¬r = [] →
      countIncomplete (R.set s ls) + 1 =
        countIncomplete R + (if ls.isEmpty then 0 else 1) := by
  induction R with
  | nil => intro s r ls h; simp at h
  | cons a R ih =>
    intro s r ls h hne
    cases s with
    | zero =>
      simp only [List.getElem?_cons_zero, Option.some.injEq] at h
      subst h
      rw [List.set_cons_zero, countIncomplete, countIncomplete,
        if_neg (fun hh => hne (List.isEmpty_iff.mp hh))]
      by_cases hls : ls.isEmpty = true
      · simp only [hls, if_true, eq_self_iff_true]
        omega
      · simp only [hls, if_false]
        omega
    | succ s =>
      simp only [List.getElem?_cons_succ] at h
      rw [List.set_cons_succ, countIncomplete, countIncomplete]
      have := ih s r ls h hne
      omega

theorem buildIlv_all_empty (R : List (List (List String)))
    (ilv : List (List String)) (h : BuildIlv R ilv)
    (hR : ∀ r ∈ R, r = []) : ilv = [] := by
  cases h with
  | nil => rfl
  | cons R s sTok l ls rest hget htok hrec =>
    exfalso
    have hsR : s < R.length := by
      by_contra hcon
      push_neg at hcon
      rw [List.getElem?_eq_none hcon] at hget
      cases hget
    have hmem := hR R[s] (List.getElem_mem hsR)
    rw [List.getElem?_eq_getElem hsR] at hget
    rw [Option.some.inj hget] at hmem
    cases hmem

theorem finalizeSlots_done (arts : List ArtSpec) :
    ∀ (slots : List (Option PartialArtifactLog)),
      slots.length = arts.length →
      (∀ s (hs : s < arts.length),
        slots[s]? = some (some (.Done (arts[s]).artifact))) →
      finalizeSlots slots = .ok (arts.map ArtSpec.artifact) := by
  induction arts with
  | nil =>
    intro slots hlen _
    rw [List.length_nil] at hlen
    rw [List.eq_nil_of_length_eq_zero hlen]
    rfl
  | cons A arts ih =>
    intro slots hlen hs
    cases slots with
    | nil => simp at hlen
    | cons o slots =>
      have h0 := hs 0 (by simp)
      simp only [List.getElem?_cons_zero, Option.some.injEq] at h0
      subst h0
      rw [finalizeSlots,
        ih slots (by simpa using hlen) (fun s hss => by
          have := hs (s + 1) (by simpa using Nat.succ_lt_succ hss)
          simpa using this)]
      rfl

theorem countIncomplete_of_all_empty (R : List (List (List String)))
    (h : ∀ r ∈ R, r = []) : countIncomplete R = 0 := by
  induction R with
  | nil => rfl
  | cons a R ih =>
    have ha : a = [] := h a (List.mem_cons_self _ _)
    subst ha
    rw [countIncomplete, ih (fun r hr => h r (List.mem_cons_of_mem _ hr))]
    rfl

theorem partial_ne_done : (Decoding.Partial = Decoding.Done) = False := by
  simp

/-- Invariant run of the build decoder over an interleaving of the slots'
artifact line sequences: from a `ListingArtifacts` state whose count equals
the number of slots with lines still to come and whose slot entries reflect
each slot's progress, consuming the rest of the interleaving reaches
`Done` with the built record in slot order; the emission trace is one
artifact per completion followed by exactly one final build emission. -/
theorem buildIlv_run (B : BuildSpec) (hWF : B.WF)
    (R : List (List (List String))) (ilv : List (List String))
    (hilv : BuildIlv R ilv) :
    ∀ (c : Nat) (slots : List (Option PartialArtifactLog)),
      R.length = B.arts.length →
      slots.length = B.arts.length →
      (∀ s (hs : s < B.arts.length),
        ∃ k, k ≤ (B.arts[s]).ps.length + 5 ∧
          R[s]? = some ((B.arts[s]).lines.drop k) ∧
          slots[s]? = some (if k = 0 then none
            else some ((B.arts[s]).stateAt k))) →
      c = countIncomplete R →
      0 < c →
      ∃ as : List Artifact, runBuild (.ListingArtifacts c slots) ilv =
        .ok (.Done B.build, as.map BuildLogEventKind.Artifact ++
          [.Done B.build]) ∧ as.length = c := by
  induction hilv with
  | nil R hR =>
    intro c slots hRlen hslen hinv hc hpos
    exfalso
    rw [countIncomplete_of_all_empty R hR] at hc
    omega
  | cons R s sTok l ls rest hget htok hrec ih =>
    intro c slots hRlen hslen hinv hc hpos
    have hsR : s < R.length := by
      by_contra hcon
      push_neg at hcon
      rw [List.getElem?_eq_none hcon] at hget
      cases hget
    have hsN : s < B.arts.length := hRlen ▸ hsR
    obtain ⟨k, hk, hRk, hsk⟩ := hinv s hsN
    rw [hget] at hRk
    have hdk : (B.arts[s]).lines.drop k = l :: ls := (Option.some.inj hRk).symm
    have hklt : k < (B.arts[s]).lines.length := by
      by_contra hcon
      push_neg at hcon
      rw [List.drop_eq_nil_of_le hcon] at hdk
      cases hdk
    have hls : ls = (B.arts[s]).lines.drop (k + 1) := by
      have h2 := List.drop_eq_getElem_cons hklt
      rw [hdk] at h2
      exact (List.cons.inj h2).2
    have hWFs : (B.arts[s]).WF := hWF.2 _ (List.getElem_mem hsN)
    have hstep := artifact_step (B.arts[s]) hWFs k l ls hdk
    have hslt : s < slots.length := hslen ▸ hsN
    have hcur : (slots.get ⟨s, hslt⟩).getD .Root = (B.arts[s]).stateAt k := by
      have hv : slots[s] = (if k = 0 then none
          else some ((B.arts[s]).stateAt k)) := by
        have hv0 := hsk
        rw [List.getElem?_eq_getElem hslt] at hv0
        exact Option.some.inj hv0
      simp only [List.get_eq_getElem, hv]
      by_cases hk0 : k = 0
      · rw [if_pos hk0, hk0]; rfl
      · rw [if_neg hk0]; rfl
    have hline := decode_artifact_line c slots sTok s l htok hslt
      ((B.arts[s]).stateAt (k + 1))
      (if ls.isEmpty then [(B.arts[s]).artifact] else [])
      (if ls.isEmpty then Decoding.Done else Decoding.Partial)
      (by rw [hcur]; exact hstep)
    have hcset := countIncomplete_set R s (l :: ls) ls hget (by simp)
    cases hl : ls.isEmpty with
    | true =>
      have hlsnil : ls = [] := List.isEmpty_iff.mp hl
      have hktot : k + 1 = (B.arts[s]).ps.length + 5 := by
        have hge : (B.arts[s]).lines.length ≤ k + 1 := by
          by_contra hcon
          push_neg at hcon
          have h2 := List.drop_eq_getElem_cons hcon
          rw [← hls, hlsnil] at h2
          cases h2
        rw [lines_length] at hge
        have hlt2 := hklt
        rw [lines_length] at hlt2
        omega
      have hst1 : (B.arts[s]).stateAt (k + 1) = .Done (B.arts[s]).artifact := by
        rw [hktot, show (B.arts[s]).ps.length + 5 =
          ((B.arts[s]).ps.length + 1) + 4 from rfl]
        exact stateAt_done _ _ (by omega)
      simp only [hl, eq_self_iff_true, if_true] at hline
      have hcz : countIncomplete (R.set s ls) = c - 1 := by
        rw [hlsnil] at hcset ⊢
        simp only [List.isEmpty_nil, eq_self_iff_true, if_true] at hcset
        omega
      by_cases hc1 : c - 1 = 0
      · -- this line completes the build
        have hallempty : ∀ r ∈ R.set s ls, r = [] :=
          countIncomplete_zero _ (by omega)
        have hrestnil : rest = [] := buildIlv_all_empty _ _ hrec hallempty
        have hfin : finalizeSlots
            (slots.set s (some ((B.arts[s]).stateAt (k + 1)))) =
            .ok (B.arts.map ArtSpec.artifact) := by
          apply finalizeSlots_done B.arts _
            (by rw [List.length_set]; exact hslen)
          intro t hts
          by_cases hts2 : t = s
          · subst hts2
            rw [List.getElem?_set_eq_of_lt _ (hslen ▸ hts), hst1]
          · rw [List.getElem?_set_ne (fun hh => hts2 hh.symm)]
            obtain ⟨kt, hkt, hRt, hst⟩ := hinv t hts
            have htR : t < R.length := hRlen ▸ hts
            have hRtmem : (B.arts[t]).lines.drop kt ∈ R.set s ls := by
              have hne2 : ¬s = t := fun hh => hts2 hh.symm
              have : (R.set s ls)[t]? = some ((B.arts[t]).lines.drop kt) := by
                rw [List.getElem?_set_ne hne2]
                exact hRt
              have htR2 : t < (R.set s ls).length := by
                rw [List.length_set]; exact htR
              rw [List.getElem?_eq_getElem htR2] at this
              have := Option.some.inj this
              rw [← this]
              exact List.getElem_mem htR2
            have hRtnil : (B.arts[t]).lines.drop kt = [] :=
              hallempty _ hRtmem
            have hkt2 : kt = (B.arts[t]).ps.length + 5 := by
              have hge : (B.arts[t]).lines.length ≤ kt := by
                by_contra hcon
                push_neg at hcon
                have h2 := List.drop_eq_getElem_cons hcon
                rw [hRtnil] at h2
                cases h2
              rw [lines_length] at hge
              omega
            rw [hst, if_neg (by omega), hkt2,
              show (B.arts[t]).ps.length + 5 =
                ((B.arts[t]).ps.length + 1) + 4 from rfl,
              stateAt_done _ _ (by omega)]
        have hline2 : PartialBuildLog.try_decode (.ListingArtifacts c slots)
            ("artifact" :: sTok :: l) =
            .ok (.Done B.build,
              [(B.arts[s]).artifact].map BuildLogEventKind.Artifact ++
                [.Done B.build], .Done) := by
          rw [hline, if_pos (by omega), hfin]
          rfl
        refine ⟨[(B.arts[s]).artifact], ?_, by
          simp only [List.length_cons, List.length_nil]; omega⟩
        rw [hrestnil, runBuild_cons_ok _ _ _ _ _ _ hline2]
        simp [runBuild, Except.map]
      · -- the build goes on
        have hinv2 : ∀ t (hts : t < B.arts.length),
            ∃ kt, kt ≤ (B.arts[t]).ps.length + 5 ∧
              (R.set s ls)[t]? = some ((B.arts[t]).lines.drop kt) ∧
              (slots.set s (some ((B.arts[s]).stateAt (k + 1))))[t]? =
                some (if kt = 0 then none
                  else some ((B.arts[t]).stateAt kt)) := by
          intro t hts
          by_cases hts2 : t = s
          · subst hts2
            refine ⟨k + 1, by omega, ?_, ?_⟩
            · rw [List.getElem?_set_eq_of_lt _ (hRlen ▸ hts), hls]
            · rw [List.getElem?_set_eq_of_lt _ (hslen ▸ hts),
                if_neg (by omega)]
          · obtain ⟨kt, hkt, hRt, hst⟩ := hinv t hts
            exact ⟨kt, hkt, by
              rw [List.getElem?_set_ne (fun hh => hts2 hh.symm)]; exact hRt, by
              rw [List.getElem?_set_ne (fun hh => hts2 hh.symm)]; exact hst⟩
        obtain ⟨as1, hrun1, hlen1⟩ := ih (c - 1)
          (slots.set s (some ((B.arts[s]).stateAt (k + 1))))
          (by rw [List.length_set]; exact hRlen)
          (by rw [List.length_set]; exact hslen)
          hinv2 hcz.symm (by omega)
        have hline2 : PartialBuildLog.try_decode (.ListingArtifacts c slots)
            ("artifact" :: sTok :: l) =
            .ok (.ListingArtifacts (c - 1)
              (slots.set s (some ((B.arts[s]).stateAt (k + 1)))),
              [(B.arts[s]).artifact].map BuildLogEventKind.Artifact,
              .Partial) := by
          rw [hline, if_neg (by omega)]
        refine ⟨(B.arts[s]).artifact :: as1, ?_, by
          simp only [List.length_cons, hlen1]; omega⟩
        rw [runBuild_cons_ok _ _ _ _ _ _ hline2, hrun1]
        simp [Except.map]
    | false =>
      have hksucc : k + 1 ≤ (B.arts[s]).ps.length + 5 := by
        have hlt2 := hklt
        rw [lines_length] at hlt2
        omega
      simp only [hl, Bool.false_eq_true, if_false, partial_ne_done] at hline
      have hcsame : countIncomplete (R.set s ls) = c := by
        simp only [hl, Bool.false_eq_true, if_false] at hcset
        omega
      have hinv2 : ∀ t (hts : t < B.arts.length),
          ∃ kt, kt ≤ (B.arts[t]).ps.length + 5 ∧
            (R.set s ls)[t]? = some ((B.arts[t]).lines.drop kt) ∧
            (slots.set s (some ((B.arts[s]).stateAt (k + 1))))[t]? =
              some (if kt = 0 then none
                else some ((B.arts[t]).stateAt kt)) := by
        intro t hts
        by_cases hts2 : t = s
        · subst hts2
          refine ⟨k + 1, hksucc, ?_, ?_⟩
          · rw [List.getElem?_set_eq_of_lt _ (hRlen ▸ hts), hls]
          · rw [List.getElem?_set_eq_of_lt _ (hslen ▸ hts),
              if_neg (by omega)]
        · obtain ⟨kt, hkt, hRt, hst⟩ := hinv t hts
          exact ⟨kt, hkt, by
            rw [List.getElem?_set_ne (fun hh => hts2 hh.symm)]; exact hRt, by
            rw [List.getElem?_set_ne (fun hh => hts2 hh.symm)]; exact hst⟩
      obtain ⟨as1, hrun1, hlen1⟩ := ih c
        (slots.set s (some ((B.arts[s]).stateAt (k + 1))))
        (by rw [List.length_set]; exact hRlen)
        (by rw [List.length_set]; exact hslen)
        hinv2 hcsame.symm hpos
      have hline2 : PartialBuildLog.try_decode (.ListingArtifacts c slots)
          ("artifact" :: sTok :: l) =
          .ok (.ListingArtifacts c
            (slots.set s (some ((B.arts[s]).stateAt (k + 1)))), [],
            .Partial) := by
        rw [hline, if_neg (by omega)]
        rfl
      refine ⟨as1, ?_, hlen1⟩
      rw [runBuild_cons_ok _ _ _ _ _ _ hline2, hrun1]
      simp [Except.map]

/-- C2, amended to builds with at least one artifact.  For every build whose
declared artifact count `N ≥ 1` is satisfied by `N` complete artifact
sub-sequences interleaved arbitrarily across slots, the build decoder emits
exactly one build completion — the final event of the trace, fired on the
line completing the `N`-th artifact, preceded by exactly `N` artifact
emissions — containing all `N` artifacts assembled in slot order
(`B.build = ⟨B.arts.map ArtSpec.artifact⟩`). -/
theorem build_decode_complete (B : BuildSpec) (hWF : B.WF)
    (hN : 1 ≤ B.arts.length) (ilv : List (List String))
    (hilv : BuildIlv (B.arts.map ArtSpec.lines) ilv) :
    ∃ as : List Artifact,
      runBuild .Root (["artifact-count", B.countTok] :: ilv) =
        .ok (.Done B.build,
          as.map BuildLogEventKind.Artifact ++ [.Done B.build]) ∧
      as.length = B.arts.length := by
  have hstep := decode_artifact_count B.countTok B.arts.length [] hWF.1
  have hcnt : countIncomplete (B.arts.map ArtSpec.lines) = B.arts.length := by
    rw [countIncomplete_all_nonempty, List.length_map]
    intro r hr hnil
    obtain ⟨A, hA, hAr⟩ := List.mem_map.mp hr
    rw [hnil] at hAr
    have := lines_length A
    rw [hAr] at this
    simp at this
  obtain ⟨as, hrun, hlen⟩ := buildIlv_run B hWF _ _ hilv B.arts.length
    (List.replicate B.arts.length none)
    (by rw [List.length_map])
    (by rw [List.length_replicate])
    (fun s hs => ⟨0, by omega, by
      rw [List.drop_zero, List.getElem?_map, List.getElem?_eq_getElem hs]
      rfl, by
      rw [List.getElem?_replicate, if_pos hs]
      rfl⟩)
    hcnt.symm (by omega)
  refine ⟨as, ?_, hlen⟩
  rw [runBuild_cons_ok _ _ _ _ _ _ hstep, hrun]
  rfl

/-- Counterexample to C2 at `N = 0`: the line `artifact-count,0` is the
complete input of a build with zero artifacts (the empty interleaving of
zero sub-sequences), yet the decoder emits no build-completion at all — the
`count == 0` check sits only in the `ListingArtifacts` arm, so the state
stays `ListingArtifacts 0 []` and is never finalized. -/
theorem build_zero_count_no_event :
    runBuild .Root [["artifact-count", "0"]] =
      .ok (.ListingArtifacts 0 [], []) ∧
    BuildIlv (([] : List ArtSpec).map ArtSpec.lines) [] :=
  ⟨rfl, BuildIlv.nil _ (by intro r hr; cases hr)⟩

/-- Witness for C2 at the one-artifact build `wBuild`: exactly one build
completion, after one artifact completion. -/
theorem build_decode_complete_witness :
    wBuild.WF ∧
    (∃ as : List Artifact,
      runBuild .Root (["artifact-count", wBuild.countTok] :: wIlv) =
        .ok (.Done wBuild.build,
          as.map BuildLogEventKind.Artifact ++ [.Done wBuild.build]) ∧
      as.length = wBuild.arts.length) := by
  have hwf : wBuild.WF := by
    unfold BuildSpec.WF ArtSpec.WF
    decide
  refine ⟨hwf, build_decode_complete wBuild hwf (by decide) wIlv ?_⟩
  refine BuildIlv.cons _ 0 "0" _ _ _ rfl rfl ?_
  refine BuildIlv.cons _ 0 "0" _ _ _ rfl rfl ?_
  refine BuildIlv.cons _ 0 "0" _ _ _ rfl rfl ?_
  refine BuildIlv.cons _ 0 "0" _ _ _ rfl rfl ?_
  refine BuildIlv.cons _ 0 "0" _ _ _ rfl rfl ?_
  refine BuildIlv.cons _ 0 "0" _ _ _ rfl rfl ?_
  exact BuildIlv.nil _ (by decide)

/-! ### Event-log runs and the per-build frame -/

theorem lookupBuild_update_self (m : List (String × PartialBuildLog))
    (name : String) (v : PartialBuildLog) :
    lookupBuild (updateBuild m name v) name = some v := by
  induction m with
  | nil => simp [updateBuild, lookupBuild]
  | cons p m ih =>
    obtain ⟨k, w⟩ := p
    rw [updateBuild]
    by_cases hk : k = name
    · rw [if_pos hk, lookupBuild, if_pos hk]
    · rw [if_neg hk, lookupBuild, if_neg hk, ih]

theorem lookupBuild_update_ne (m : List (String × PartialBuildLog))
    (name name2 : String) (v : PartialBuildLog) (h : ¬name = name2) :
    lookupBuild (updateBuild m name v) name2 = lookupBuild m name2 := by
  induction m with
  | nil => simp [updateBuild, lookupBuild, h]
  | cons p m ih =>
    obtain ⟨k, w⟩ := p
    rw [updateBuild]
    by_cases hk : k = name
    · rw [if_pos hk, lookupBuild, lookupBuild, if_neg (hk ▸ h), if_neg (hk ▸ h)]
    · rw [if_neg hk, lookupBuild, lookupBuild, ih]

theorem runEvents_cons_ok (m : EventLog) (l : List String)
    (ls : List (List String)) (m1 : EventLog) (evs : List Event)
    (d : Decoding) (h : m.try_decode l = .ok (m1, evs, d)) :
    runEvents m (l :: ls) =
      (runEvents m1 ls).map (fun q => (q.1, (l, evs) :: q.2)) := by
  rw [runEvents, h]
  cases hr : runEvents m1 ls with
  | error e => simp [Bind.bind, Except.bind, Except.map, hr]
  | ok q =>
    obtain ⟨m2, tr⟩ := q
    simp [Bind.bind, Except.bind, Except.map, hr, pure, Except.pure]

theorem runEvents_cons_inv (m : EventLog) (l : List String)
    (ls : List (List String)) (r : EventLog × List (List String × List Event))
    (h : runEvents m (l :: ls) = .ok r) :
    ∃ m1 evs d tr1, m.try_decode l = .ok (m1, evs, d) ∧
      runEvents m1 ls = .ok (r.1, tr1) ∧ r.2 = (l, evs) :: tr1 := by
  rw [runEvents] at h
  cases hd : m.try_decode l with
  | error e =>
    rw [hd] at h
    exact absurd h (by simp [Bind.bind, Except.bind])
  | ok t =>
    obtain ⟨m1, evs, d⟩ := t
    rw [hd] at h
    simp only [Bind.bind, Except.bind] at h
    cases hr : runEvents m1 ls with
    | error e =>
      rw [hr] at h
      exact absurd h (by simp)
    | ok q =>
      obtain ⟨m2, tr1⟩ := q
      rw [hr] at h
      simp only [Bind.bind, Except.bind, pure, Except.pure,
        Except.ok.injEq] at h
      subst h
      exact ⟨m1, evs, d, tr1, rfl, hr, rfl⟩

theorem traceEvents_cons (l : List String) (evs : List Event)
    (tr : List (List String × List Event)) :
    traceEvents ((l, evs) :: tr) = evs ++ traceEvents tr := by
  simp [traceEvents]

theorem projEvents_cons_eq (n ts : String) (r : List String)
    (evs : List Event) (tr : List (List String × List Event)) :
    projEvents n ((ts :: n :: r, evs) :: tr) = evs ++ projEvents n tr := by
  simp [projEvents, List.filter_cons]

theorem projEvents_cons_ne (n n2 ts : String) (r : List String)
    (evs : List Event) (tr : List (List String × List Event)) (h : ¬n2 = n) :
    projEvents n ((ts :: n2 :: r, evs) :: tr) = projEvents n tr := by
  simp [projEvents, List.filter_cons, h]

theorem projEvents_nil (n : String) : projEvents n [] = [] := rfl

theorem traceEvents_nil : traceEvents [] = [] := rfl

/-- Interleaving two independent builds' lines through the event log: if the
two build names are distinct and non-empty, the interleaved log's entries
for the two names track two reference logs whose contiguous runs succeed,
then the interleaved run succeeds and the events emitted on each build's
lines are exactly the events of that build's contiguous run. -/
theorem ilv2_run (nA nB : String) (hA : ¬nA = "") (hB : ¬nB = "")
    (hAB : ¬nA = nB) :
    ∀ (xs ys zs : List (List String)), Ilv2 xs ys zs →
      (∀ x ∈ xs, ∃ ts r, x = ts :: nA :: r) →
      (∀ y ∈ ys, ∃ ts r, y = ts :: nB :: r) →
      ∀ (m mA mB : EventLog),
        lookupBuild m.builds nA = lookupBuild mA.builds nA →
        lookupBuild m.builds nB = lookupBuild mB.builds nB →
        ∀ mA2 trA, runEvents mA xs = .ok (mA2, trA) →
        ∀ mB2 trB, runEvents mB ys = .ok (mB2, trB) →
        ∃ m2 tr, runEvents m zs = .ok (m2, tr) ∧
          projEvents nA tr = traceEvents trA ∧
          projEvents nB tr = traceEvents trB := by
  intro xs ys zs hilv
  induction hilv with
  | nil =>
    intro _ _ m mA mB _ _ mA2 trA hrA mB2 trB hrB
    simp only [runEvents, Except.ok.injEq, Prod.mk.injEq] at hrA hrB
    refine ⟨m, [], rfl, ?_, ?_⟩
    · rw [← hrA.2]; rfl
    · rw [← hrB.2]; rfl
  | left x xs ys zs hsub ih =>
    intro hxs hys m mA mB hlA hlB mA2 trA hrA mB2 trB hrB
    obtain ⟨ts, rr, hx⟩ := hxs x (List.mem_cons_self _ _)
    subst hx
    obtain ⟨mA1, evs, d, trA1, hdA, hrA1, htr⟩ :=
      runEvents_cons_inv _ _ _ _ hrA
    have hdecA := eventlog_decode_build mA ts nA rr hA
    rw [hdA] at hdecA
    cases hinner : ((lookupBuild mA.builds nA).getD .Root).try_decode rr with
    | error e =>
      rw [hinner] at hdecA
      cases hdecA
    | ok t =>
      obtain ⟨st1, ems, d1⟩ := t
      rw [hinner] at hdecA
      simp only [Except.ok.injEq, Prod.mk.injEq] at hdecA
      obtain ⟨hmA1, hevs, _⟩ := hdecA
      have hstepm : m.try_decode (ts :: nA :: rr) =
          .ok (⟨updateBuild m.builds nA st1⟩,
            ems.map (enrich ts nA), .Partial) := by
        rw [eventlog_decode_build m ts nA rr hA, hlA, hinner]
      have hlA2 : lookupBuild (updateBuild m.builds nA st1) nA =
          lookupBuild mA1.builds nA := by
        rw [hmA1, lookupBuild_update_self, lookupBuild_update_self]
      have hlB2 : lookupBuild (updateBuild m.builds nA st1) nB =
          lookupBuild mB.builds nB := by
        rw [lookupBuild_update_ne _ _ _ _ hAB, hlB]
      obtain ⟨m2, tr2, hrun2, hpA, hpB⟩ :=
        ih (fun x hx => hxs x (List.mem_cons_of_mem _ hx)) hys
          ⟨updateBuild m.builds nA st1⟩ mA1 mB hlA2 hlB2 mA2 trA1 hrA1
          mB2 trB hrB
      refine ⟨m2, (ts :: nA :: rr, ems.map (enrich ts nA)) :: tr2, ?_, ?_, ?_⟩
      · rw [runEvents_cons_ok _ _ _ _ _ _ hstepm, hrun2]
        rfl
      · have htr2 : trA = (ts :: nA :: rr, evs) :: trA1 := htr
        rw [projEvents_cons_eq, hpA, htr2, traceEvents_cons, hevs]
      · rw [projEvents_cons_ne nB nA ts rr _ tr2 hAB, hpB]
  | right y xs ys zs hsub ih =>
    intro hxs hys m mA mB hlA hlB mA2 trA hrA mB2 trB hrB
    obtain ⟨ts, rr, hy⟩ := hys y (List.mem_cons_self _ _)
    subst hy
    obtain ⟨mB1, evs, d, trB1, hdB, hrB1, htr⟩ :=
      runEvents_cons_inv _ _ _ _ hrB
    have hdecB := eventlog_decode_build mB ts nB rr hB
    rw [hdB] at hdecB
    cases hinner : ((lookupBuild mB.builds nB).getD .Root).try_decode rr with
    | error e =>
      rw [hinner] at hdecB
      cases hdecB
    | ok t =>
      obtain ⟨st1, ems, d1⟩ := t
      rw [hinner] at hdecB
      simp only [Except.ok.injEq, Prod.mk.injEq] at hdecB
      obtain ⟨hmB1, hevs, _⟩ := hdecB
      have hstepm : m.try_decode (ts :: nB :: rr) =
          .ok (⟨updateBuild m.builds nB st1⟩,
            ems.map (enrich ts nB), .Partial) := by
        rw [eventlog_decode_build m ts nB rr hB, hlB, hinner]
      have hlB2 : lookupBuild (updateBuild m.builds nB st1) nB =
          lookupBuild mB1.builds nB := by
        rw [hmB1, lookupBuild_update_self, lookupBuild_update_self]
      have hlA2 : lookupBuild (updateBuild m.builds nB st1) nA =
          lookupBuild mA.builds nA := by
        rw [lookupBuild_update_ne _ _ _ _ (fun hh => hAB hh.symm), hlA]
      obtain ⟨m2, tr2, hrun2, hpA, hpB⟩ :=
        ih hxs (fun y hy => hys y (List.mem_cons_of_mem _ hy))
          ⟨updateBuild m.builds nB st1⟩ mA mB1 hlA2 hlB2 mA2 trA hrA
          mB2 trB1 hrB1
      refine ⟨m2, (ts :: nB :: rr, ems.map (enrich ts nB)) :: tr2, ?_, ?_, ?_⟩
      · rw [runEvents_cons_ok _ _ _ _ _ _ hstepm, hrun2]
        rfl
      · rw [projEvents_cons_ne nA nB ts rr _ tr2 (fun hh => hAB hh.symm), hpA]
      · have htr2 : trB = (ts :: nB :: rr, evs) :: trB1 := htr
        rw [projEvents_cons_eq, hpB, htr2, traceEvents_cons, hevs]

/-- C3.  For two builds with distinct non-empty names, feeding one build's
line subsequence interleaved in any way with the other's through
`EventLog::try_decode` (both contiguous runs succeeding) produces, for each
build, exactly the same sequence of events — artifact completions and build
completions — as feeding that build's lines contiguously to a fresh log. -/
theorem interleaved_builds_same_events (nA nB : String) (hA : ¬nA = "")
    (hB : ¬nB = "") (hAB : ¬nA = nB)
    (la lb : List (String × List String)) (zs : List (List String))
    (hz : Ilv2 (tagLines nA la) (tagLines nB lb) zs)
    (mA : EventLog) (trA : List (List String × List Event))
    (hrA : runEvents ⟨[]⟩ (tagLines nA la) = .ok (mA, trA))
    (mB : EventLog) (trB : List (List String × List Event))
    (hrB : runEvents ⟨[]⟩ (tagLines nB lb) = .ok (mB, trB)) :
    ∃ m tr, runEvents ⟨[]⟩ zs = .ok (m, tr) ∧
      projEvents nA tr = traceEvents trA ∧
      projEvents nB tr = traceEvents trB := by
  refine ilv2_run nA nB hA hB hAB _ _ _ hz ?_ ?_ ⟨[]⟩ ⟨[]⟩ ⟨[]⟩ rfl rfl
    mA trA hrA mB trB hrB
  · intro x hx
    obtain ⟨p, hp, hpx⟩ := List.mem_map.mp hx
    exact ⟨p.1, p.2, hpx.symm⟩
  · intro y hy
    obtain ⟨p, hp, hpy⟩ := List.mem_map.mp hy
    exact ⟨p.1, p.2, hpy.symm⟩

/-- Witness for C3 at a strict alternation of two one-artifact builds. -/
theorem interleaved_builds_same_events_witness :
    ∃ m tr, runEvents ⟨[]⟩ wZs = .ok (m, tr) ∧
      projEvents "b1" tr = traceEvents wTrA ∧
      projEvents "b2" tr = traceEvents wTrB := by
  refine interleaved_builds_same_events "b1" "b2" (by decide) (by decide)
    (by decide) wLa wLa wZs ?_ wMA wTrA rfl wMB wTrB rfl
  refine Ilv2.left _ _ _ _ (Ilv2.right _ _ _ _ ?_)
  refine Ilv2.left _ _ _ _ (Ilv2.right _ _ _ _ ?_)
  refine Ilv2.left _ _ _ _ (Ilv2.right _ _ _ _ ?_)
  refine Ilv2.left _ _ _ _ (Ilv2.right _ _ _ _ ?_)
  refine Ilv2.left _ _ _ _ (Ilv2.right _ _ _ _ ?_)
  refine Ilv2.left _ _ _ _ (Ilv2.right _ _ _ _ ?_)
  refine Ilv2.left _ _ _ _ (Ilv2.right _ _ _ _ ?_)
  exact Ilv2.nil
